import Mathlib

/-!
MysqlCluster controller: registration of watches and the reconcile loop.

A shallow embedding of `pkg/controller/mysqlcluster/mysqlcluster_controller.go`.

The controller file calls into collaborators that live elsewhere (the API client, the
scheme, the defaulting wrapper, `syncer.Sync` and the syncer constructors).  They are taken
as parameters: a value of `ReconcileMysqlCluster` bundles them as pure functions over an
explicit world `W` (the object store and whatever else the collaborators touch).  The Go
`cluster` pointer, shared between `Reconcile` and every syncer, is threaded as a value.
Every call `Reconcile` makes to a collaborator is appended to a trace, so that statements
about "which calls are issued, and in which order" are statements about that trace.
-/

namespace MysqlOperator

/-! ## Data model -/

/-- Resource kinds the controller file names. -/
inductive Kind
  | MysqlCluster
  | StatefulSet
  | Service
  | ConfigMap
  | PodDisruptionBudget
  | Secret
  deriving DecidableEq, Repr

/-- The two event handlers used by `add`. -/
inductive EventHandler
  | EnqueueRequestForObject
  | EnqueueRequestForOwner (IsController : Bool) (OwnerType : Kind)
  deriving DecidableEq, Repr

/-- One call `c.Watch(&source.Kind{Type: src}, handler)`. -/
structure WatchCall where
  src : Kind
  handler : EventHandler
  deriving DecidableEq, Repr

/-- What `add` needs of the manager: the error (if any) of `controller.New`, and the error
(if any) of a `c.Watch` call given the watches registered so far. -/
structure Manager (ε : Type) where
  New : Option ε
  Watch : List WatchCall → WatchCall → Option ε

/-- Identity of a request: `types.NamespacedName`. -/
structure NamespacedName where
  Namespace : String
  Name : String
  deriving DecidableEq, Repr

/-- The value `reconcile.Result`; `reconcile.Result{}` is `{}`. -/
structure Result where
  Requeue : Bool := false
  RequeueAfter : Nat := 0
  deriving DecidableEq, Repr

/-- The cluster spec.  `Reconcile` reads `MinAvailable` only; `other` stands for every
remaining field. -/
structure MysqlClusterSpec (α : Type) where
  MinAvailable : String
  other : α
  deriving DecidableEq, Repr

/-- The `MysqlCluster` object: spec, and a status compared by `reflect.DeepEqual`. -/
structure MysqlCluster (α σ : Type) where
  Spec : MysqlClusterSpec α
  Status : σ
  deriving DecidableEq, Repr

/-- A syncer as built by the constructors `NewConfigMapSyncer` ... `NewPDBSyncer`.  The
`cluster` pointer and `r.opt` every constructor receives are the threaded cluster value and
part of the reconciler; the statefulset syncer also carries the two resource versions
it is constructed with. -/
inductive Syncer
  | ConfigMap
  | Secret
  | HeadlessSVC
  | MasterSVC
  | HealthySVC
  | StatefulSet (configMapResourceVersion secretResourceVersion : String)
  | PDB
  deriving DecidableEq, Repr

/-- A write issued through `r.Client` by a syncer. -/
inductive ClientOp
  | create (kind : Kind) (name : String)
  | update (kind : Kind) (name : String)
  deriving DecidableEq, Repr

/-- What one call `syncer.Sync(ctx, s, r.Client, r.scheme, r.recorder)` leaves behind. -/
structure SyncResult (α σ ε W : Type) where
  /-- the returned error -/
  err : Option ε
  /-- the cluster behind the shared pointer after the call -/
  cluster : MysqlCluster α σ
  /-- the world after the call -/
  world : W
  /-- the create and update calls the syncer issued -/
  ops : List ClientOp
  /-- the `ResourceVersion` of the object the syncer holds (`GetObject()`) after the call -/
  resourceVersion : String

/-- The reconciler with its collaborators. -/
structure ReconcileMysqlCluster (α σ ε W : Type) where
  /-- `r.Get(ctx, request.NamespacedName, cluster)` -/
  Get : W → NamespacedName → Except ε (MysqlCluster α σ)
  /-- `errors.IsNotFound` -/
  IsNotFound : ε → Bool
  /-- `r.scheme.Default(cluster)` -/
  Default : MysqlCluster α σ → MysqlCluster α σ
  /-- `wrapcluster.NewMysqlClusterWrapper(cluster).SetDefaults(r.opt)` -/
  SetDefaults : MysqlCluster α σ → MysqlCluster α σ
  /-- `syncer.Sync` -/
  Sync : Syncer → MysqlCluster α σ → W → SyncResult α σ ε W
  /-- `r.Status().Update(ctx, cluster)`: its error and the world after it -/
  StatusUpdate : MysqlCluster α σ → W → Option ε × W

/-- Calls made by `Reconcile`, in the order they are made. -/
inductive Event (ε : Type)
  | get (key : NamespacedName)
  | logInfo
  | schemeDefault
  | setDefaults
  | sync (s : Syncer) (ops : List ClientOp) (resourceVersion : String) (err : Option ε)
  | getObject (s : Syncer)
  | statusUpdate (err : Option ε)
  | logError
  deriving DecidableEq, Repr

/-- The state an attempt threads: cluster behind the pointer, world, calls made so far.
`minAvailable` records the value of `cluster.Spec.MinAvailable` that line 186 reads
(`none` until that line is reached). -/
structure Run (α σ ε W : Type) where
  cluster : MysqlCluster α σ
  world : W
  trace : List (Event ε)
  minAvailable : Option String := none

/-- What an execution of `Reconcile` returns and leaves behind.  `snapshot` is the local
`status` (line 152), `cluster` the cluster when the function body returns; both are `none`
when the function returns before line 152.  `minAvailable` is the value of
`cluster.Spec.MinAvailable` read at line 186, `none` when that line is not reached. -/
structure Outcome (α σ ε W : Type) where
  result : Result
  err : Option ε
  trace : List (Event ε)
  world : W
  snapshot : Option σ
  cluster : Option (MysqlCluster α σ)
  minAvailable : Option String

/-! ## The program -/

/-- Go's `len` of a string: its length in bytes. -/
def len (s : String) : Nat := s.utf8ByteSize

/-- One `c.Watch(...)` inside `add`: on error nothing is added. -/
def watch {ε : Type} (mgr : Manager ε) (registered : List WatchCall) (call : WatchCall) :
    Option ε × List WatchCall :=
  match mgr.Watch registered call with
  | some err => (some err, registered)
  | none => (none, registered ++ [call])

/-- The function `add` (lines 66-114): the returned error, and the watches registered. -/
def add {ε : Type} (mgr : Manager ε) : Option ε × List WatchCall :=
  -- Create a new controller
  match mgr.New with
  | some err => (some err, [])
  | none =>
  -- Watch for changes to MysqlCluster
  match watch mgr [] ⟨Kind.MysqlCluster, EventHandler.EnqueueRequestForObject⟩ with
  | (some err, ws) => (some err, ws)
  | (none, ws) =>
  match watch mgr ws ⟨Kind.StatefulSet, EventHandler.EnqueueRequestForOwner true Kind.MysqlCluster⟩ with
  | (some err, ws) => (some err, ws)
  | (none, ws) =>
  match watch mgr ws ⟨Kind.Service, EventHandler.EnqueueRequestForOwner true Kind.MysqlCluster⟩ with
  | (some err, ws) => (some err, ws)
  | (none, ws) =>
  match watch mgr ws ⟨Kind.ConfigMap, EventHandler.EnqueueRequestForOwner true Kind.MysqlCluster⟩ with
  | (some err, ws) => (some err, ws)
  | (none, ws) =>
  match watch mgr ws
      ⟨Kind.PodDisruptionBudget, EventHandler.EnqueueRequestForOwner true Kind.MysqlCluster⟩ with
  | (some err, ws) => (some err, ws)
  | (none, ws) =>
  -- TODO watch for secret
  (none, ws)

variable {α σ ε W : Type}

/-- One `err = syncer.Sync(ctx, s, r.Client, r.scheme, r.recorder)`: the error, the resource
version of the object the syncer then holds, and the state after the call. -/
def runSync (r : ReconcileMysqlCluster α σ ε W) (s : Syncer) (st : Run α σ ε W) :
    Option ε × String × Run α σ ε W :=
  let out := r.Sync s st.cluster st.world
  (out.err, out.resourceVersion,
    { st with cluster := out.cluster, world := out.world,
              trace := st.trace ++ [Event.sync s out.ops out.resourceVersion out.err] })

/-- The loop of lines 190-195: sync in order, return at the first error. -/
def syncLoop (r : ReconcileMysqlCluster α σ ε W) :
    List Syncer → Run α σ ε W → Option ε × Run α σ ε W
  | [], st => (none, st)
  | sync :: rest, st =>
    match runSync r sync st with
    | (some err, _, st) => (some err, st)
    | (none, _, st) => syncLoop r rest st

/-- The syncer list of lines 178-188. -/
def buildSyncers (cluster : MysqlCluster α σ)
    (configMapResourceVersion secretResourceVersion : String) : List Syncer :=
  let syncers := [Syncer.HeadlessSVC, Syncer.MasterSVC, Syncer.HealthySVC,
    Syncer.StatefulSet configMapResourceVersion secretResourceVersion]
  if len cluster.Spec.MinAvailable ≠ 0 then syncers ++ [Syncer.PDB] else syncers

/-- Lines 162-197: the part of `Reconcile` the deferred function wraps.  The object a syncer
holds is changed by its own Sync only, so the resource versions read at lines 174-175 are
those the two syncs left. -/
def reconcileSyncs (r : ReconcileMysqlCluster α σ ε W) (st : Run α σ ε W) :
    Result × Option ε × Run α σ ε W :=
  match runSync r Syncer.ConfigMap st with
  | (some err, _, st) => ({}, some err, st)
  | (none, configMapObjectVersion, st) =>
  match runSync r Syncer.Secret st with
  | (some err, _, st) => ({}, some err, st)
  | (none, secretObjectVersion, st) =>
  let configMapResourceVersion := configMapObjectVersion
  let secretResourceVersion := secretObjectVersion
  let st := { st with trace := st.trace ++
    [Event.getObject Syncer.ConfigMap, Event.getObject Syncer.Secret] }
  -- run the syncers for services, pdb and statefulset
  let st := { st with minAvailable := some st.cluster.Spec.MinAvailable }
  let syncers := buildSyncers st.cluster configMapResourceVersion secretResourceVersion
  match syncLoop r syncers st with
  | (some err, st) => ({}, some err, st)
  | (none, st) => ({}, none, st)

/-- The deferred function of lines 153-160, given the snapshot `status`. -/
def deferred [DecidableEq σ] (r : ReconcileMysqlCluster α σ ε W) (status : σ)
    (st : Run α σ ε W) : Run α σ ε W :=
  if status ≠ st.cluster.Status then
    match r.StatusUpdate st.cluster st.world with
    | (some sErr, world) =>
      { st with world := world,
                trace := st.trace ++ [Event.statusUpdate (some sErr), Event.logError] }
    | (none, world) =>
      { st with world := world, trace := st.trace ++ [Event.statusUpdate none] }
  else st

/-- The cluster after lines 149-150. -/
def setDefaults (r : ReconcileMysqlCluster α σ ε W) (cluster : MysqlCluster α σ) :
    MysqlCluster α σ :=
  r.SetDefaults (r.Default cluster)

/-- The method `Reconcile` (lines 133-198). -/
def Reconcile [DecidableEq σ] (r : ReconcileMysqlCluster α σ ε W) (request : NamespacedName)
    (world : W) : Outcome α σ ε W :=
  -- Fetch the MysqlCluster instance
  match r.Get world request with
  | Except.error err =>
    if r.IsNotFound err then
      -- Object not found, return.
      { result := {}, err := none, trace := [Event.get request], world := world,
        snapshot := none, cluster := none, minAvailable := none }
    else
      -- Error reading the object - requeue the request.
      { result := {}, err := some err, trace := [Event.get request], world := world,
        snapshot := none, cluster := none, minAvailable := none }
  | Except.ok cluster =>
    -- Set defaults on cluster
    let cluster := setDefaults r cluster
    let status := cluster.Status
    let st : Run α σ ε W :=
      { cluster := cluster, world := world,
        trace := [Event.get request, Event.logInfo, Event.schemeDefault, Event.setDefaults] }
    match reconcileSyncs r st with
    | (result, err, st) =>
      let cluster := st.cluster
      let st := deferred r status st
      { result := result, err := err, trace := st.trace, world := st.world,
        snapshot := some status, cluster := some cluster, minAvailable := st.minAvailable }

/-! ## Reading a trace -/

/-- The syncer of a `syncer.Sync` call. -/
def Event.syncer : Event ε → Option Syncer
  | Event.sync s _ _ _ => some s
  | _ => none

/-- Whether the event is a `syncer.Sync` call that returned an error. -/
def Event.failed : Event ε → Bool
  | Event.sync _ _ _ (some _) => true
  | _ => false

/-- The create and update calls issued inside the event. -/
def Event.ops : Event ε → List ClientOp
  | Event.sync _ ops _ _ => ops
  | _ => []

/-- Whether the event is the status update of the deferred function. -/
def Event.isStatusUpdate : Event ε → Bool
  | Event.statusUpdate _ => true
  | _ => false

/-- Whether the event belongs to the deferred function. -/
def Event.isDeferred : Event ε → Bool
  | Event.statusUpdate _ => true
  | Event.logError => true
  | _ => false

/-- The syncers run, in order. -/
def syncersRun (t : List (Event ε)) : List Syncer := t.filterMap Event.syncer

/-- The child-resource create and update calls issued, in order. -/
def clientOps (t : List (Event ε)) : List ClientOp := (t.map Event.ops).flatten

/-- The number of status updates issued. -/
def statusUpdates (t : List (Event ε)) : Nat := t.countP Event.isStatusUpdate

/-- A step of the syncing part: running a syncer, or reading the resource version of the
object a syncer holds. -/
inductive Step
  | run (s : Syncer)
  | read (s : Syncer)
  deriving DecidableEq, Repr

/-- The step an event is, if any. -/
def Event.step : Event ε → Option Step
  | Event.sync s _ _ _ => some (Step.run s)
  | Event.getObject s => some (Step.read s)
  | _ => none

/-- The steps of the syncing part, in order. -/
def steps (t : List (Event ε)) : List Step := t.filterMap Event.step

/-- The kinds `add` registered a watch on. -/
def watchedKinds (ws : List WatchCall) : List Kind := ws.map WatchCall.src

/-- The resource kind a syncer maintains. -/
def Syncer.kind : Syncer → Kind
  | Syncer.ConfigMap => Kind.ConfigMap
  | Syncer.Secret => Kind.Secret
  | Syncer.HeadlessSVC => Kind.Service
  | Syncer.MasterSVC => Kind.Service
  | Syncer.HealthySVC => Kind.Service
  | Syncer.StatefulSet _ _ => Kind.StatefulSet
  | Syncer.PDB => Kind.PodDisruptionBudget

/-- No `syncer.Sync` call in the trace returned an error. -/
def Clean (t : List (Event ε)) : Prop := ∀ ev ∈ t, ev.failed = false

/-- The syncer list of lines 178-188 as a function of the `MinAvailable` read. -/
def syncersFor (minAvailable configMapResourceVersion secretResourceVersion : String) :
    List Syncer :=
  [Syncer.HeadlessSVC, Syncer.MasterSVC, Syncer.HealthySVC,
    Syncer.StatefulSet configMapResourceVersion secretResourceVersion] ++
  (if len minAvailable ≠ 0 then [Syncer.PDB] else [])

/-- What the loop of lines 190-195 appends to the trace when run on `l` and returning `err`:
syncs of `l` in order, all successful, up to the end of `l` or to the first failure. -/
def LoopPart (t : List (Event ε)) (err : Option ε) (l : List Syncer) : Prop :=
  (∀ ev ∈ t, ∃ s ops rv e, ev = Event.sync s ops rv e ∧ s ∈ l) ∧
  ((err = none ∧ syncersRun t = l ∧ Clean t) ∨
   (∃ e t0 s ops rv rest, err = some e ∧ t = t0 ++ [Event.sync s ops rv (some e)] ∧
      Clean t0 ∧ l = syncersRun t0 ++ s :: rest))

/-- What lines 162-197 append to the trace, with the error returned and the `MinAvailable`
read at line 186. -/
def SyncPart (t : List (Event ε)) (err : Option ε) (m : Option String) : Prop :=
  (∃ ops rv e, t = [Event.sync Syncer.ConfigMap ops rv (some e)] ∧ err = some e ∧ m = none) ∨
  (∃ ops1 rv1 ops2 rv2 e,
      t = [Event.sync Syncer.ConfigMap ops1 rv1 none, Event.sync Syncer.Secret ops2 rv2 (some e)] ∧
      err = some e ∧ m = none) ∨
  (∃ ops1 rv1 ops2 rv2 ma t3,
      t = [Event.sync Syncer.ConfigMap ops1 rv1 none, Event.sync Syncer.Secret ops2 rv2 none,
            Event.getObject Syncer.ConfigMap, Event.getObject Syncer.Secret] ++ t3 ∧
      m = some ma ∧ LoopPart t3 err (syncersFor ma rv1 rv2))

/-- What the deferred function appends to the trace. -/
def DeferredPart [DecidableEq σ] (d : List (Event ε)) (snapshot final : σ) : Prop :=
  (snapshot = final ∧ d = []) ∨
  (snapshot ≠ final ∧
    (d = [Event.statusUpdate none] ∨ ∃ e, d = [Event.statusUpdate (some e), Event.logError]))

/-- The Sync of `s` ran in the trace and left the object `s` holds at resource version
`rv`. -/
def syncedAt (t : List (Event ε)) (s : Syncer) (rv : String) : Prop :=
  ∃ ops e, Event.sync s ops rv e ∈ t

/-! ## Sample collaborators -/

/-- A sample reconciler over a world that counts the writes made.  The fetch answers
`fetch`; error 404 is the NotFound error; defaulting changes nothing; every syncer creates
its object and adds one to the status, the syncer of kind `failing` then returns error 500;
the config map is left at resource version "7", the secret at "9". -/
def sample (fetch : Except Nat (MysqlCluster Unit Nat)) (failing : Option Kind) :
    ReconcileMysqlCluster Unit Nat Nat Nat where
  Get := fun _ _ => fetch
  IsNotFound := fun e => e == 404
  Default := id
  SetDefaults := id
  Sync := fun s c w =>
    { err := if some s.kind = failing then some 500 else none
      cluster := { c with Status := c.Status + 1 }
      world := w + 1
      ops := [ClientOp.create s.kind "db"]
      resourceVersion :=
        match s with
        | Syncer.ConfigMap => "7"
        | Syncer.Secret => "9"
        | _ => "1" }
  StatusUpdate := fun _ w => (none, w + 1)

/-- A sample cluster with the given `MinAvailable` and status 0. -/
def sampleCluster (minAvailable : String) : MysqlCluster Unit Nat :=
  { Spec := { MinAvailable := minAvailable, other := () }, Status := 0 }

/-- A sample request. -/
def sampleRequest : NamespacedName := { Namespace := "default", Name := "db" }

/-- A manager for which `controller.New` and every `c.Watch` succeed. -/
def sampleManager : Manager Nat := { New := none, Watch := fun _ _ => none }

/-! ## The collaborators over an object store

The syncers, the defaulting and the object store are not in the controller file.  For the
statement about running `Reconcile` twice they are modelled from the specification: the
store as seen from one MysqlCluster, and `syncer.Sync` as the read / compute / write-if-
different step of the orchestrator contract. -/

/-- The child resource a syncer maintains (three of them are of kind Service). -/
inductive Slot
  | ConfigMap
  | Secret
  | HeadlessSVC
  | MasterSVC
  | HealthySVC
  | StatefulSet
  | PDB
  deriving DecidableEq, Repr

/-- The child resource of a syncer. -/
def Syncer.slot : Syncer → Slot
  | Syncer.ConfigMap => Slot.ConfigMap
  | Syncer.Secret => Slot.Secret
  | Syncer.HeadlessSVC => Slot.HeadlessSVC
  | Syncer.MasterSVC => Slot.MasterSVC
  | Syncer.HealthySVC => Slot.HealthySVC
  | Syncer.StatefulSet _ _ => Slot.StatefulSet
  | Syncer.PDB => Slot.PDB

/-- Modelled from the spec: a persisted child resource, its body and the version token the
store assigned at its last write (the syncers are missing from the sources). -/
structure Stored (β : Type) where
  body : β
  resourceVersion : String
  deriving DecidableEq, Repr

/-- Modelled from the spec: the object store as seen from one MysqlCluster (the store is
missing from the sources): the identity of the cluster, the persisted cluster if it exists,
its child resources, and the counter from which version tokens are drawn. -/
structure Store (α σ β : Type) where
  key : NamespacedName
  cluster : Option (MysqlCluster α σ)
  children : Slot → Option (Stored β)
  next : Nat

/-- Modelled from the spec: what the defaulting and the syncers compute (both are missing
from the sources).  Defaulting is a pure function of the spec; the desired body of a child
resource is a pure function of the spec and of the version tokens the syncer carries, and
its computation may fail; `observe` is the side channel by which a syncer changes the
cluster status: the status it sets (`none` when it leaves the status alone) is recomputed
from the spec, the version tokens the syncer carries and the resource as persisted after
the sync, never from the status it finds. -/
structure SyncerLogic (α σ ε β : Type) where
  schemeDefault : MysqlClusterSpec α → MysqlClusterSpec α
  setDefaults : MysqlClusterSpec α → MysqlClusterSpec α
  desiredBody : Syncer → MysqlClusterSpec α → Except ε β
  observe : Syncer → MysqlClusterSpec α → Stored β → Option σ
  notFound : ε
  isNotFound : ε → Bool

/-- Modelled from the spec: the store write of a syncer (missing from the sources): the
body is persisted under a fresh version token. -/
def Store.write {β : Type} (w : Store α σ β) (slot : Slot) (body : β) : Store α σ β :=
  { w with children := Function.update w.children slot (some ⟨body, toString w.next⟩),
           next := w.next + 1 }

/-- Modelled from the spec: the cluster as a syncer leaves it (the syncers are missing from
the sources), given the resource as persisted after the sync: the spec is untouched, the
status is the one the syncer recomputes, if any. -/
def SyncerLogic.observed {β : Type} (logic : SyncerLogic α σ ε β) (s : Syncer)
    (c : MysqlCluster α σ) (persisted : Stored β) : MysqlCluster α σ :=
  match logic.observe s c.Spec persisted with
  | some status => { c with Status := status }
  | none => c

/-- Modelled from the spec: one `syncer.Sync` (missing from the sources), the orchestrator
contract: read the persisted body (absent is a valid state), compute the desired body
(an error is returned at once), and write only if the two differ, creating if absent and
updating if present.  The store has no other writer and does not fail. -/
def storeSync {β : Type} [DecidableEq β] (logic : SyncerLogic α σ ε β) (s : Syncer)
    (c : MysqlCluster α σ) (w : Store α σ β) : SyncResult α σ ε (Store α σ β) :=
  match logic.desiredBody s c.Spec with
  | Except.error e =>
    { err := some e, cluster := c, world := w, ops := [],
      resourceVersion := match w.children s.slot with
        | some cur => cur.resourceVersion
        | none => "" }
  | Except.ok desired =>
    match w.children s.slot with
    | none =>
      { err := none,
        cluster := logic.observed s c ⟨desired, toString w.next⟩,
        world := w.write s.slot desired,
        ops := [ClientOp.create s.kind w.key.Name],
        resourceVersion := toString w.next }
    | some cur =>
      if cur.body = desired then
        { err := none, cluster := logic.observed s c cur,
          world := w, ops := [], resourceVersion := cur.resourceVersion }
      else
        { err := none,
          cluster := logic.observed s c ⟨desired, toString w.next⟩,
          world := w.write s.slot desired,
          ops := [ClientOp.update s.kind w.key.Name],
          resourceVersion := toString w.next }

/-- Modelled from the spec: the collaborators of `Reconcile` over the store (they are
missing from the sources).  The fetch reads the persisted cluster; defaulting acts on the
spec; the status update is a status-only write that is committed. -/
def storeReconciler {β : Type} [DecidableEq β] (logic : SyncerLogic α σ ε β) :
    ReconcileMysqlCluster α σ ε (Store α σ β) where
  Get := fun w key =>
    if key = w.key then
      match w.cluster with
      | some c => Except.ok c
      | none => Except.error logic.notFound
    else Except.error logic.notFound
  IsNotFound := logic.isNotFound
  Default := fun c => { c with Spec := logic.schemeDefault c.Spec }
  SetDefaults := fun c => { c with Spec := logic.setDefaults c.Spec }
  Sync := storeSync logic
  StatusUpdate := fun c w =>
    (none, { w with cluster := w.cluster.map (fun p => { p with Status := c.Status }) })

/-- The child resource of `s` is persisted with the body `s` desires for `spec`. -/
def Settled {β : Type} (logic : SyncerLogic α σ ε β) (spec : MysqlClusterSpec α)
    (w : Store α σ β) (s : Syncer) : Prop :=
  ∃ cur, w.children s.slot = some cur ∧ logic.desiredBody s spec = Except.ok cur.body

/-- The version token under which a child resource is persisted. -/
def Store.token {β : Type} (w : Store α σ β) (slot : Slot) : String :=
  match w.children slot with
  | some cur => cur.resourceVersion
  | none => ""

/-- Every child resource that `Reconcile` syncs for `spec` is persisted as desired: config
map and secret, and every syncer of the list built from their version tokens. -/
def Converged {β : Type} (logic : SyncerLogic α σ ε β) (spec : MysqlClusterSpec α)
    (w : Store α σ β) : Prop :=
  Settled logic spec w Syncer.ConfigMap ∧ Settled logic spec w Syncer.Secret ∧
  ∀ s ∈ syncersFor spec.MinAvailable (w.token Slot.ConfigMap) (w.token Slot.Secret),
    Settled logic spec w s

/-- The status after the syncer `s` has run on a store where its resource is persisted:
the status `s` recomputes from it, or the status found when `s` sets none. -/
def statusAfter {β : Type} (logic : SyncerLogic α σ ε β) (spec : MysqlClusterSpec α)
    (w : Store α σ β) (s : Syncer) (status : σ) : σ :=
  match w.children s.slot with
  | some cur => (logic.observe s spec cur).getD status
  | none => status

/-- The status after the syncers of `l` have run in order. -/
def statusAfterAll {β : Type} (logic : SyncerLogic α σ ε β) (spec : MysqlClusterSpec α)
    (w : Store α σ β) (l : List Syncer) (status : σ) : σ :=
  l.foldl (fun acc s => statusAfter logic spec w s acc) status

/-- A sample logic over bodies that are strings: nothing is defaulted, the desired body of
the statefulset is made of the two version tokens, that of every other resource of
`MinAvailable`; the statefulset syncer sets the status to the length of the persisted body,
the secret syncer sets it to 3, the other syncers leave it alone. -/
def sampleLogic : SyncerLogic Unit Nat Nat String where
  schemeDefault := id
  setDefaults := id
  desiredBody := fun s spec =>
    match s with
    | Syncer.StatefulSet a b => Except.ok (a ++ "/" ++ b)
    | _ => Except.ok spec.MinAvailable
  observe := fun s _ persisted =>
    match s with
    | Syncer.StatefulSet _ _ => some persisted.body.length
    | Syncer.Secret => some 3
    | _ => none
  notFound := 404
  isNotFound := fun e => e == 404

/-- A sample store holding the sample cluster and no child resource. -/
def sampleStore : Store Unit Nat String :=
  { key := sampleRequest, cluster := some (sampleCluster "50%"), children := fun _ => none,
    next := 1 }

/-! ## Structure of an attempt -/

theorem buildSyncers_eq (cluster : MysqlCluster α σ) (a b : String) :
    buildSyncers cluster a b = syncersFor cluster.Spec.MinAvailable a b := by
  unfold buildSyncers syncersFor
  by_cases h : len cluster.Spec.MinAvailable = 0 <;> simp [h]

theorem syncLoop_spec (r : ReconcileMysqlCluster α σ ε W) (l : List Syncer) :
    ∀ st : Run α σ ε W, ∃ t, (syncLoop r l st).2.trace = st.trace ++ t ∧
      (syncLoop r l st).2.minAvailable = st.minAvailable ∧
      LoopPart t (syncLoop r l st).1 l := by
  induction l with
  | nil =>
    intro st
    exact ⟨[], by simp [syncLoop], rfl, by simp [LoopPart, syncLoop, syncersRun, Clean]⟩
  | cons s rest ih =>
    intro st
    cases herr : (r.Sync s st.cluster st.world).err with
    | some e =>
      refine ⟨[Event.sync s (r.Sync s st.cluster st.world).ops
        (r.Sync s st.cluster st.world).resourceVersion (some e)], ?_, ?_, ?_⟩
      · simp [syncLoop, runSync, herr]
      · simp [syncLoop, runSync, herr]
      · refine ⟨?_, Or.inr ⟨e, [], s, _, _, rest, ?_, rfl, ?_, ?_⟩⟩
        · intro ev hev
          simp only [List.mem_singleton] at hev
          exact ⟨s, _, _, _, hev, List.mem_cons_self _ _⟩
        · simp [syncLoop, runSync, herr]
        · intro ev hev; simp at hev
        · simp [syncersRun]
    | none =>
      obtain ⟨t, h1, h2, h3, h4⟩ := ih
        { st with cluster := (r.Sync s st.cluster st.world).cluster,
                  world := (r.Sync s st.cluster st.world).world,
                  trace := st.trace ++ [Event.sync s (r.Sync s st.cluster st.world).ops
                    (r.Sync s st.cluster st.world).resourceVersion none] }
      have hloop : syncLoop r (s :: rest) st = syncLoop r rest
          { st with cluster := (r.Sync s st.cluster st.world).cluster,
                    world := (r.Sync s st.cluster st.world).world,
                    trace := st.trace ++ [Event.sync s (r.Sync s st.cluster st.world).ops
                      (r.Sync s st.cluster st.world).resourceVersion none] } := by
        simp [syncLoop, runSync, herr]
      rw [hloop]
      refine ⟨Event.sync s (r.Sync s st.cluster st.world).ops
        (r.Sync s st.cluster st.world).resourceVersion none :: t, ?_, ?_, ?_, ?_⟩
      · rw [h1]; simp
      · rw [h2]
      · intro ev hev
        rcases List.mem_cons.mp hev with hev | hev
        · exact ⟨s, _, _, _, hev, List.mem_cons_self _ _⟩
        · obtain ⟨s1, ops, rv, e, he, hs⟩ := h3 ev hev
          exact ⟨s1, ops, rv, e, he, List.mem_cons_of_mem _ hs⟩
      · rcases h4 with ⟨he, hrun, hclean⟩ | ⟨e, t0, s1, ops, rv, rest1, he, ht, hclean, hl⟩
        · refine Or.inl ⟨he, ?_, ?_⟩
          · simp [syncersRun, Event.syncer] at hrun ⊢
            exact hrun
          · intro ev hev
            rcases List.mem_cons.mp hev with hev | hev
            · subst hev; rfl
            · exact hclean ev hev
        · refine Or.inr ⟨e, Event.sync s (r.Sync s st.cluster st.world).ops
            (r.Sync s st.cluster st.world).resourceVersion none :: t0, s1, ops, rv, rest1,
            he, ?_, ?_, ?_⟩
          · rw [ht]; rfl
          · intro ev hev
            rcases List.mem_cons.mp hev with hev | hev
            · subst hev; rfl
            · exact hclean ev hev
          · rw [hl]; simp [syncersRun, Event.syncer]

theorem reconcileSyncs_spec (r : ReconcileMysqlCluster α σ ε W) (st : Run α σ ε W)
    (hm : st.minAvailable = none) :
    ∃ t, (reconcileSyncs r st).2.2.trace = st.trace ++ t ∧ (reconcileSyncs r st).1 = {} ∧
      SyncPart t (reconcileSyncs r st).2.1 (reconcileSyncs r st).2.2.minAvailable := by
  cases h1 : (r.Sync Syncer.ConfigMap st.cluster st.world).err with
  | some e =>
    refine ⟨[Event.sync Syncer.ConfigMap (r.Sync Syncer.ConfigMap st.cluster st.world).ops
      (r.Sync Syncer.ConfigMap st.cluster st.world).resourceVersion (some e)], ?_, ?_, ?_⟩
    · simp [reconcileSyncs, runSync, h1]
    · simp [reconcileSyncs, runSync, h1]
    · exact Or.inl ⟨_, _, e, rfl, by simp [reconcileSyncs, runSync, h1],
        by simp [reconcileSyncs, runSync, h1, hm]⟩
  | none =>
    generalize hc1 : r.Sync Syncer.ConfigMap st.cluster st.world = o1 at h1
    cases h2 : (r.Sync Syncer.Secret o1.cluster o1.world).err with
    | some e =>
      refine ⟨[Event.sync Syncer.ConfigMap o1.ops o1.resourceVersion none,
        Event.sync Syncer.Secret (r.Sync Syncer.Secret o1.cluster o1.world).ops
          (r.Sync Syncer.Secret o1.cluster o1.world).resourceVersion (some e)], ?_, ?_, ?_⟩
      · simp [reconcileSyncs, runSync, hc1, h1, h2]
      · simp [reconcileSyncs, runSync, hc1, h1, h2]
      · exact Or.inr (Or.inl ⟨_, _, _, _, e, rfl, by simp [reconcileSyncs, runSync, hc1, h1, h2],
          by simp [reconcileSyncs, runSync, hc1, h1, h2, hm]⟩)
    | none =>
      generalize hc2 : r.Sync Syncer.Secret o1.cluster o1.world = o2 at h2
      obtain ⟨t3, h3, h4, h5⟩ := syncLoop_spec r
        (buildSyncers o2.cluster o1.resourceVersion o2.resourceVersion)
        { cluster := o2.cluster, world := o2.world,
          trace := st.trace ++ [Event.sync Syncer.ConfigMap o1.ops o1.resourceVersion none] ++
            [Event.sync Syncer.Secret o2.ops o2.resourceVersion none] ++
            [Event.getObject Syncer.ConfigMap, Event.getObject Syncer.Secret],
          minAvailable := some o2.cluster.Spec.MinAvailable }
      generalize hloop : syncLoop r (buildSyncers o2.cluster o1.resourceVersion o2.resourceVersion)
        { cluster := o2.cluster, world := o2.world,
          trace := st.trace ++ [Event.sync Syncer.ConfigMap o1.ops o1.resourceVersion none] ++
            [Event.sync Syncer.Secret o2.ops o2.resourceVersion none] ++
            [Event.getObject Syncer.ConfigMap, Event.getObject Syncer.Secret],
          minAvailable := some o2.cluster.Spec.MinAvailable } = out at h3 h4 h5
      have hrec : reconcileSyncs r st = ({}, out.1, out.2) := by
        simp only [reconcileSyncs, runSync, hc1, h1, hc2, h2, hloop]
        rcases out with ⟨_ | e, st2⟩ <;> rfl
      rw [hrec]
      refine ⟨[Event.sync Syncer.ConfigMap o1.ops o1.resourceVersion none,
        Event.sync Syncer.Secret o2.ops o2.resourceVersion none,
        Event.getObject Syncer.ConfigMap, Event.getObject Syncer.Secret] ++ t3, ?_, rfl, ?_⟩
      · simp only [h3]; simp
      · refine Or.inr (Or.inr ⟨_, _, _, _, o2.cluster.Spec.MinAvailable, t3, rfl, h4, ?_⟩)
        rw [← buildSyncers_eq]; exact h5

/-- The shape of every attempt whose fetch succeeds. -/
theorem Reconcile_ok_spec [DecidableEq σ] (r : ReconcileMysqlCluster α σ ε W)
    (request : NamespacedName) (world : W) (c0 : MysqlCluster α σ)
    (hget : r.Get world request = Except.ok c0) :
    ∃ t d c, (Reconcile r request world).trace =
        [Event.get request, Event.logInfo, Event.schemeDefault, Event.setDefaults] ++ t ++ d ∧
      (Reconcile r request world).result = {} ∧
      (Reconcile r request world).snapshot = some (setDefaults r c0).Status ∧
      (Reconcile r request world).cluster = some c ∧
      SyncPart t (Reconcile r request world).err (Reconcile r request world).minAvailable ∧
      DeferredPart d (setDefaults r c0).Status c.Status := by
  obtain ⟨t, h1, h2, h3⟩ := reconcileSyncs_spec r
    { cluster := setDefaults r c0, world := world,
      trace := [Event.get request, Event.logInfo, Event.schemeDefault, Event.setDefaults] } rfl
  generalize hrs : reconcileSyncs r
    { cluster := setDefaults r c0, world := world,
      trace := [Event.get request, Event.logInfo, Event.schemeDefault, Event.setDefaults] } = out
    at h1 h2 h3
  rcases out with ⟨res, err, st⟩
  simp only at h1 h2 h3
  have hR : Reconcile r request world =
      { result := res, err := err, trace := (deferred r (setDefaults r c0).Status st).trace,
        world := (deferred r (setDefaults r c0).Status st).world,
        snapshot := some (setDefaults r c0).Status, cluster := some st.cluster,
        minAvailable := (deferred r (setDefaults r c0).Status st).minAvailable } := by
    simp only [Reconcile, hget, hrs]
  have hdm : (deferred r (setDefaults r c0).Status st).minAvailable = st.minAvailable := by
    unfold deferred
    split
    · split <;> rfl
    · rfl
  rw [hR]
  by_cases hs : (setDefaults r c0).Status = st.cluster.Status
  · refine ⟨t, [], st.cluster, ?_, h2, rfl, rfl, ?_, Or.inl ⟨hs, rfl⟩⟩
    · simp [deferred, hs, h1]
    · simp only [hdm]; exact h3
  · cases hu : (r.StatusUpdate st.cluster st.world).1 with
    | none =>
      refine ⟨t, [Event.statusUpdate none], st.cluster, ?_, h2, rfl, rfl, ?_,
        Or.inr ⟨hs, Or.inl rfl⟩⟩
      · generalize hsu : r.StatusUpdate st.cluster st.world = su at hu
        rcases su with ⟨e, w⟩
        simp only at hu
        subst hu
        simp [deferred, hs, h1, hsu]
      · simp only [hdm]; exact h3
    | some e =>
      refine ⟨t, [Event.statusUpdate (some e), Event.logError], st.cluster, ?_, h2, rfl, rfl, ?_,
        Or.inr ⟨hs, Or.inr ⟨e, rfl⟩⟩⟩
      · generalize hsu : r.StatusUpdate st.cluster st.world = su at hu
        rcases su with ⟨e1, w⟩
        simp only at hu
        subst hu
        simp [deferred, hs, h1, hsu]
      · simp only [hdm]; exact h3

/-! ## Small facts about traces -/

theorem len_eq_zero_iff (s : String) : len s = 0 ↔ s = "" := by
  constructor
  · intro h
    rcases s with ⟨cs⟩
    cases cs with
    | nil => rfl
    | cons c cs =>
      exfalso
      have hpos := Char.utf8Size_pos c
      simp only [len, String.utf8ByteSize, String.utf8ByteSize.go] at h
      omega
  · intro h
    subst h
    rfl

theorem Clean_append {t1 t2 : List (Event ε)} (h1 : Clean t1) (h2 : Clean t2) :
    Clean (t1 ++ t2) := by
  intro ev hev
  rcases List.mem_append.mp hev with h | h
  · exact h1 ev h
  · exact h2 ev h

theorem not_failed_of_Clean {t pre post : List (Event ε)} {f : Event ε} (h : Clean t)
    (hf : f.failed = true) (ht : t = pre ++ f :: post) : False := by
  have := h f (by rw [ht]; simp)
  rw [hf] at this
  exact Bool.noConfusion this

theorem split_at_failure {A D : List (Event ε)} {f g : Event ε} (hA : Clean A) (hD : Clean D)
    (hg : g.failed = true) :
    ∀ {pre post : List (Event ε)}, A ++ f :: D = pre ++ g :: post →
      pre = A ∧ g = f ∧ post = D := by
  induction A with
  | nil =>
    intro pre post h
    cases pre with
    | nil =>
      simp only [List.nil_append, List.cons.injEq] at h
      exact ⟨rfl, h.1.symm, h.2.symm⟩
    | cons p pre =>
      simp only [List.nil_append, List.cons_append, List.cons.injEq] at h
      exact (not_failed_of_Clean hD hg h.2).elim
  | cons a A ih =>
    intro pre post h
    cases pre with
    | nil =>
      simp only [List.nil_append, List.cons_append, List.cons.injEq] at h
      have := hA a (List.mem_cons_self _ _)
      rw [h.1, hg] at this
      exact Bool.noConfusion this
    | cons p pre =>
      simp only [List.cons_append, List.cons.injEq] at h
      obtain ⟨h1, h2, h3⟩ := ih (fun ev hev => hA ev (List.mem_cons_of_mem _ hev)) h.2
      exact ⟨by rw [h.1, h1], h2, h3⟩

theorem DeferredPart_facts [DecidableEq σ] {d : List (Event ε)} {s1 s2 : σ}
    (h : DeferredPart d s1 s2) :
    Clean d ∧ (∀ ev ∈ d, ev.isDeferred = true) ∧ syncersRun d = [] ∧ clientOps d = [] ∧
      steps d = [] ∧ statusUpdates d = (if s1 = s2 then 0 else 1) := by
  rcases h with ⟨h1, rfl⟩ | ⟨h1, rfl | ⟨e, rfl⟩⟩ <;>
    simp [Clean, Event.failed, Event.isDeferred, syncersRun, clientOps, steps, statusUpdates,
      Event.syncer, Event.ops, Event.step, Event.isStatusUpdate, h1]

theorem LoopPart_facts {t : List (Event ε)} {err : Option ε} {l : List Syncer}
    (h : LoopPart t err l) :
    statusUpdates t = 0 ∧ steps t = (syncersRun t).map Step.run := by
  obtain ⟨h1, _⟩ := h
  clear * - h1
  induction t with
  | nil => simp [statusUpdates, steps, syncersRun]
  | cons ev t ih =>
    obtain ⟨s, ops, rv, e, he, _⟩ := h1 ev (List.mem_cons_self _ _)
    have ih2 := ih (fun ev hev => h1 ev (List.mem_cons_of_mem _ hev))
    subst he
    simp only [statusUpdates, steps, syncersRun] at ih2 ⊢
    simp [Event.isStatusUpdate, Event.step, Event.syncer, ih2.1, ih2.2]

/-- Either no sync failed, or the syncing part ends with the one failed sync, whose error is
the one returned; the syncers run form an initial segment of the fixed order. -/
theorem SyncPart_cases {t : List (Event ε)} {err : Option ε} {m : Option String}
    (h : SyncPart t err m) :
    (err = none ∧ Clean t) ∨
    (∃ e t0 s ops rv, err = some e ∧ t = t0 ++ [Event.sync s ops rv (some e)] ∧ Clean t0 ∧
      ∃ a b, syncersRun t0 ++ [s] <+: [Syncer.ConfigMap, Syncer.Secret, Syncer.HeadlessSVC,
        Syncer.MasterSVC, Syncer.HealthySVC, Syncer.StatefulSet a b, Syncer.PDB]) := by
  rcases h with ⟨ops, rv, e, rfl, rfl, _⟩ | ⟨ops1, rv1, ops2, rv2, e, rfl, rfl, _⟩ |
    ⟨ops1, rv1, ops2, rv2, ma, t3, rfl, _, _, h3⟩
  · exact Or.inr ⟨e, [], _, ops, rv, rfl, rfl, by simp [Clean], "", "",
      ⟨_, by simp [syncersRun, Event.syncer]; rfl⟩⟩
  · exact Or.inr ⟨e, [Event.sync Syncer.ConfigMap ops1 rv1 none], _, ops2, rv2, rfl, rfl,
      by simp [Clean, Event.failed], "", "", ⟨_, by simp [syncersRun, Event.syncer]; rfl⟩⟩
  · rcases h3 with ⟨he, _, hclean⟩ | ⟨e, t0, s, ops, rv, rest, he, ht, hclean, hl⟩
    · refine Or.inl ⟨he, Clean_append ?_ hclean⟩
      simp [Clean, Event.failed]
    · refine Or.inr ⟨e, [Event.sync Syncer.ConfigMap ops1 rv1 none,
        Event.sync Syncer.Secret ops2 rv2 none, Event.getObject Syncer.ConfigMap,
        Event.getObject Syncer.Secret] ++ t0, s, ops, rv, he, ?_, Clean_append ?_ hclean,
        rv1, rv2, ?_⟩
      · rw [ht]; simp
      · simp [Clean, Event.failed]
      · have h1 : syncersRun ([Event.sync Syncer.ConfigMap ops1 rv1 none,
            Event.sync Syncer.Secret ops2 rv2 none, Event.getObject Syncer.ConfigMap,
            Event.getObject Syncer.Secret] ++ t0) ++ [s] ++ rest =
            [Syncer.ConfigMap, Syncer.Secret] ++ syncersFor ma rv1 rv2 := by
          rw [hl]; simp [syncersRun, Event.syncer]
        have h2 : [Syncer.ConfigMap, Syncer.Secret] ++ syncersFor ma rv1 rv2 <+:
            [Syncer.ConfigMap, Syncer.Secret, Syncer.HeadlessSVC, Syncer.MasterSVC,
              Syncer.HealthySVC, Syncer.StatefulSet rv1 rv2, Syncer.PDB] := by
          unfold syncersFor
          by_cases hm : len ma = 0
          · exact ⟨[Syncer.PDB], by simp [hm]⟩
          · exact ⟨[], by simp [hm]⟩
        exact List.IsPrefix.trans ⟨rest, h1⟩ h2

/-- An attempt in whose trace a sync failed: the trace up to the failure is free of failures,
the failure is the error returned, and only the deferred function follows. -/
theorem Reconcile_failure_spec [DecidableEq σ] (r : ReconcileMysqlCluster α σ ε W)
    (request : NamespacedName) (world : W) (pre post : List (Event ε)) (f : Event ε)
    (hf : f.failed = true) (htrace : (Reconcile r request world).trace = pre ++ f :: post) :
    ∃ s ops rv e, f = Event.sync s ops rv (some e) ∧ (Reconcile r request world).err = some e ∧
      Clean pre ∧ Clean post ∧ (∀ ev ∈ post, ev.isDeferred = true) ∧ syncersRun post = [] ∧
      clientOps post = [] ∧
      ∃ a b, syncersRun pre ++ [s] <+: [Syncer.ConfigMap, Syncer.Secret, Syncer.HeadlessSVC,
        Syncer.MasterSVC, Syncer.HealthySVC, Syncer.StatefulSet a b, Syncer.PDB] := by
  cases hget : r.Get world request with
  | error err =>
    exfalso
    have hcl : Clean (Reconcile r request world).trace := by
      by_cases hnf : r.IsNotFound err = true <;>
        simp [Reconcile, hget, hnf, Clean, Event.failed]
    exact not_failed_of_Clean hcl hf htrace
  | ok c0 =>
    obtain ⟨t, d, c, htr, _, _, _, hsync, hdef⟩ := Reconcile_ok_spec r request world c0 hget
    obtain ⟨hdc, hdd, hds, hdo, _, _⟩ := DeferredPart_facts hdef
    have hinit : Clean
        [Event.get request, Event.logInfo, Event.schemeDefault, (Event.setDefaults : Event ε)] := by
      simp [Clean, Event.failed]
    rcases SyncPart_cases hsync with ⟨_, hclean⟩ | ⟨e, t0, s, ops, rv, he, ht, hclean, a, b, hpre⟩
    · exfalso
      have hcl : Clean (Reconcile r request world).trace := by
        rw [htr]; exact Clean_append (Clean_append hinit hclean) hdc
      exact not_failed_of_Clean hcl hf htrace
    · have hA : Clean ([Event.get request, Event.logInfo, Event.schemeDefault,
          (Event.setDefaults : Event ε)] ++ t0) := Clean_append hinit hclean
      have heq : ([Event.get request, Event.logInfo, Event.schemeDefault,
          (Event.setDefaults : Event ε)] ++ t0) ++ Event.sync s ops rv (some e) :: d =
          pre ++ f :: post := by
        rw [← htrace, htr, ht]; simp
      obtain ⟨h1, h2, h3⟩ := split_at_failure hA hdc hf heq
      subst h1 h3
      refine ⟨s, ops, rv, e, h2, he, hA, hdc, hdd, hds, hdo, a, b, ?_⟩
      simpa [syncersRun, Event.syncer] using hpre

theorem Reconcile_fetch_error [DecidableEq σ] (r : ReconcileMysqlCluster α σ ε W)
    (request : NamespacedName) (world : W) (err : ε)
    (hget : r.Get world request = Except.error err) :
    (Reconcile r request world).trace = [Event.get request] ∧
    (Reconcile r request world).minAvailable = none ∧
    (Reconcile r request world).err = (if r.IsNotFound err then none else some err) := by
  by_cases hnf : r.IsNotFound err = true <;> simp [Reconcile, hget, hnf]

theorem syncLoop_StatusUpdate (r : ReconcileMysqlCluster α σ ε W)
    (upd : MysqlCluster α σ → W → Option ε × W) (l : List Syncer) :
    ∀ st : Run α σ ε W, syncLoop { r with StatusUpdate := upd } l st = syncLoop r l st := by
  induction l with
  | nil => intro st; rfl
  | cons s rest ih =>
    intro st
    simp only [syncLoop, runSync]
    cases (r.Sync s st.cluster st.world).err with
    | some e => rfl
    | none => exact ih _

theorem reconcileSyncs_StatusUpdate (r : ReconcileMysqlCluster α σ ε W)
    (upd : MysqlCluster α σ → W → Option ε × W) (st : Run α σ ε W) :
    reconcileSyncs { r with StatusUpdate := upd } st = reconcileSyncs r st := by
  simp only [reconcileSyncs, runSync, syncLoop_StatusUpdate]

/-- The syncers and steps of an attempt are those of its syncing part. -/
theorem run_of_parts [DecidableEq σ] (request : NamespacedName) (t d : List (Event ε))
    {s1 s2 : σ} (hd : DeferredPart d s1 s2) :
    syncersRun ([Event.get request, Event.logInfo, Event.schemeDefault, Event.setDefaults]
      ++ t ++ d) = syncersRun t ∧
    steps ([Event.get request, Event.logInfo, Event.schemeDefault, Event.setDefaults]
      ++ t ++ d) = steps t := by
  obtain ⟨_, _, h1, _, h2, _⟩ := DeferredPart_facts hd
  simp only [syncersRun, steps] at h1 h2 ⊢
  simp [h1, h2, Event.syncer, Event.step]

theorem mem_syncersRun {t : List (Event ε)} {s : Syncer} (h : s ∈ syncersRun t) :
    ∃ ops rv e, Event.sync s ops rv e ∈ t := by
  simp only [syncersRun, List.mem_filterMap] at h
  obtain ⟨ev, hev, hs⟩ := h
  cases ev <;> simp [Event.syncer] at hs
  subst hs
  exact ⟨_, _, _, hev⟩

theorem PDB_not_mem_syncersFor_empty (a b : String) : Syncer.PDB ∉ syncersFor "" a b := by
  simp [syncersFor, len, String.utf8ByteSize, String.utf8ByteSize.go]

theorem failed_sync_is_returned [DecidableEq σ] (r : ReconcileMysqlCluster α σ ε W)
    (request : NamespacedName) (world : W) (pre post : List (Event ε)) (s : Syncer)
    (ops : List ClientOp) (rv : String) (e : ε)
    (htrace : (Reconcile r request world).trace = pre ++ Event.sync s ops rv (some e) :: post) :
    (Reconcile r request world).err = some e := by
  obtain ⟨s1, ops1, rv1, e1, hf, herr, _⟩ :=
    Reconcile_failure_spec r request world pre post (Event.sync s ops rv (some e)) rfl htrace
  simp only [Event.sync.injEq, Option.some.injEq] at hf
  rw [herr, hf.2.2.2]

theorem Reconcile_result [DecidableEq σ] (r : ReconcileMysqlCluster α σ ε W)
    (request : NamespacedName) (world : W) : (Reconcile r request world).result = {} := by
  cases hget : r.Get world request with
  | error err =>
    by_cases hnf : r.IsNotFound err = true <;> simp [Reconcile, hget, hnf]
  | ok c0 =>
    obtain ⟨t, d, c, _, h, _⟩ := Reconcile_ok_spec r request world c0 hget
    exact h

/-- The syncers run by an attempt that reaches line 186 with `MinAvailable` equal to `ma`:
config map and secret, then a run of the loop over the list built. -/
theorem Reconcile_list_spec [DecidableEq σ] (r : ReconcileMysqlCluster α σ ε W)
    (request : NamespacedName) (world : W) (ma : String)
    (hm : (Reconcile r request world).minAvailable = some ma) :
    ∃ init ops1 rv1 ops2 rv2 t3 d,
      (Reconcile r request world).trace = init ++
        [Event.sync Syncer.ConfigMap ops1 rv1 none, Event.sync Syncer.Secret ops2 rv2 none,
          Event.getObject Syncer.ConfigMap, Event.getObject Syncer.Secret] ++ t3 ++ d ∧
      (∀ ev ∈ init, ev.syncer = none ∧ ev.step = none) ∧
      (∀ ev ∈ d, ev.syncer = none ∧ ev.step = none) ∧
      LoopPart t3 (Reconcile r request world).err (syncersFor ma rv1 rv2) := by
  cases hget : r.Get world request with
  | error err =>
    rw [(Reconcile_fetch_error r request world err hget).2.1] at hm
    exact Option.noConfusion hm
  | ok c0 =>
    obtain ⟨t, d, c, htr, _, _, _, hsync, hdef⟩ := Reconcile_ok_spec r request world c0 hget
    rw [hm] at hsync
    rcases hsync with ⟨_, _, _, _, _, h⟩ | ⟨_, _, _, _, _, _, _, h⟩ |
      ⟨ops1, rv1, ops2, rv2, ma1, t3, rfl, h, h3⟩
    · exact Option.noConfusion h
    · exact Option.noConfusion h
    · simp only [Option.some.injEq] at h
      subst h
      refine ⟨[Event.get request, Event.logInfo, Event.schemeDefault, Event.setDefaults],
        ops1, rv1, ops2, rv2, t3, d, ?_, ?_, ?_, h3⟩
      · rw [htr]; simp
      · intro ev hev
        simp only [List.mem_cons, List.mem_singleton, List.not_mem_nil, or_false] at hev
        rcases hev with rfl | rfl | rfl | rfl <;> exact ⟨rfl, rfl⟩
      · intro ev hev
        have := (DeferredPart_facts hdef).2.1 ev hev
        cases ev <;> simp [Event.isDeferred] at this <;> exact ⟨rfl, rfl⟩

/-- The syncers and steps of a trace of the shape given by `Reconcile_list_spec`. -/
theorem run_of_list_parts {init t3 d : List (Event ε)} {ops1 ops2 : List ClientOp}
    {rv1 rv2 : String} {err : Option ε} {l : List Syncer}
    (hinit : ∀ ev ∈ init, ev.syncer = none ∧ ev.step = none)
    (hd : ∀ ev ∈ d, ev.syncer = none ∧ ev.step = none) (h3 : LoopPart t3 err l) :
    syncersRun (init ++
        [Event.sync Syncer.ConfigMap ops1 rv1 none, Event.sync Syncer.Secret ops2 rv2 none,
          Event.getObject Syncer.ConfigMap, Event.getObject Syncer.Secret] ++ t3 ++ d) =
      [Syncer.ConfigMap, Syncer.Secret] ++ syncersRun t3 ∧
    steps (init ++
        [Event.sync Syncer.ConfigMap ops1 rv1 none, Event.sync Syncer.Secret ops2 rv2 none,
          Event.getObject Syncer.ConfigMap, Event.getObject Syncer.Secret] ++ t3 ++ d) =
      [Step.run Syncer.ConfigMap, Step.run Syncer.Secret, Step.read Syncer.ConfigMap,
        Step.read Syncer.Secret] ++ (syncersRun t3).map Step.run := by
  have h1 : List.filterMap Event.syncer init = [] :=
    List.filterMap_eq_nil_iff.mpr (fun ev hev => (hinit ev hev).1)
  have h2 : List.filterMap Event.step init = [] :=
    List.filterMap_eq_nil_iff.mpr (fun ev hev => (hinit ev hev).2)
  have h3a : List.filterMap Event.syncer d = [] :=
    List.filterMap_eq_nil_iff.mpr (fun ev hev => (hd ev hev).1)
  have h4 : List.filterMap Event.step d = [] :=
    List.filterMap_eq_nil_iff.mpr (fun ev hev => (hd ev hev).2)
  have h5 := (LoopPart_facts h3).2
  simp only [steps, syncersRun] at h5 ⊢
  simp [h1, h2, h3a, h4, h5, Event.syncer, Event.step]

theorem syncersFor_split_PDB {m a b : String} {L rest : List Syncer}
    (h : syncersFor m a b = L ++ Syncer.PDB :: rest) : L ++ [Syncer.PDB] = syncersFor m a b := by
  unfold syncersFor at h ⊢
  by_cases hm : len m = 0
  · simp only [hm, ne_eq, not_true_eq_false, if_false, List.append_nil] at h ⊢
    rcases L with _ | ⟨x1, _ | ⟨x2, _ | ⟨x3, _ | ⟨x4, _ | ⟨x5, L⟩⟩⟩⟩⟩ <;> simp_all
  · simp only [hm, ne_eq, not_false_eq_true, if_true] at h ⊢
    rcases L with _ | ⟨x1, _ | ⟨x2, _ | ⟨x3, _ | ⟨x4, _ | ⟨x5, _ | ⟨x6, L⟩⟩⟩⟩⟩⟩ <;> simp_all

theorem six_append_eq (m a b : String) :
    [Syncer.ConfigMap, Syncer.Secret] ++ syncersFor m a b =
      [Syncer.ConfigMap, Syncer.Secret, Syncer.HeadlessSVC, Syncer.MasterSVC,
        Syncer.HealthySVC, Syncer.StatefulSet a b] ++ (if m = "" then [] else [Syncer.PDB]) := by
  unfold syncersFor
  by_cases hm : m = ""
  · subst hm
    have : len "" = 0 := rfl
    simp [this]
  · have : len m ≠ 0 := fun h => hm ((len_eq_zero_iff m).mp h)
    simp [hm, this]

theorem deferred_minAvailable [DecidableEq σ] (r : ReconcileMysqlCluster α σ ε W) (status : σ)
    (st : Run α σ ε W) : (deferred r status st).minAvailable = st.minAvailable := by
  unfold deferred
  split
  · split <;> rfl
  · rfl

theorem Reconcile_minAvailable [DecidableEq σ] (r : ReconcileMysqlCluster α σ ε W)
    (request : NamespacedName) (world : W) (c0 : MysqlCluster α σ)
    (hget : r.Get world request = Except.ok c0) :
    (Reconcile r request world).minAvailable =
      (reconcileSyncs r
        { cluster := setDefaults r c0, world := world, trace :=
            [Event.get request, Event.logInfo, Event.schemeDefault, Event.setDefaults]
          }).2.2.minAvailable := by
  simp only [Reconcile, hget, deferred_minAvailable]

theorem reconcileSyncs_minAvailable (r : ReconcileMysqlCluster α σ ε W) (st : Run α σ ε W)
    (h1 : (r.Sync Syncer.ConfigMap st.cluster st.world).err = none)
    (h2 : (r.Sync Syncer.Secret (r.Sync Syncer.ConfigMap st.cluster st.world).cluster
      (r.Sync Syncer.ConfigMap st.cluster st.world).world).err = none) :
    (reconcileSyncs r st).2.2.minAvailable =
      some (r.Sync Syncer.Secret (r.Sync Syncer.ConfigMap st.cluster st.world).cluster
        (r.Sync Syncer.ConfigMap st.cluster st.world).world).cluster.Spec.MinAvailable := by
  generalize hc1 : r.Sync Syncer.ConfigMap st.cluster st.world = o1 at h1 h2 ⊢
  generalize hc2 : r.Sync Syncer.Secret o1.cluster o1.world = o2 at h2 ⊢
  obtain ⟨t3, _, h4, _⟩ := syncLoop_spec r
    (buildSyncers o2.cluster o1.resourceVersion o2.resourceVersion)
    { cluster := o2.cluster, world := o2.world,
      trace := st.trace ++ [Event.sync Syncer.ConfigMap o1.ops o1.resourceVersion none] ++
        [Event.sync Syncer.Secret o2.ops o2.resourceVersion none] ++
        [Event.getObject Syncer.ConfigMap, Event.getObject Syncer.Secret],
      minAvailable := some o2.cluster.Spec.MinAvailable }
  generalize hloop : syncLoop r (buildSyncers o2.cluster o1.resourceVersion o2.resourceVersion)
    { cluster := o2.cluster, world := o2.world,
      trace := st.trace ++ [Event.sync Syncer.ConfigMap o1.ops o1.resourceVersion none] ++
        [Event.sync Syncer.Secret o2.ops o2.resourceVersion none] ++
        [Event.getObject Syncer.ConfigMap, Event.getObject Syncer.Secret],
      minAvailable := some o2.cluster.Spec.MinAvailable } = out at h4
  have hrec : reconcileSyncs r st = ({}, out.1, out.2) := by
    simp only [reconcileSyncs, runSync, hc1, h1, hc2, h2, hloop]
    rcases out with ⟨_ | e, st2⟩ <;> rfl
  rw [hrec]
  exact h4

/-- In an attempt that runs the statefulset syncer, the syncer carries the resource versions
at which the one config map sync and the one secret sync of the attempt left their objects,
and both of those syncs succeeded. -/
theorem statefulSet_versions [DecidableEq σ] (r : ReconcileMysqlCluster α σ ε W)
    (request : NamespacedName) (world : W) (a b : String)
    (h : Syncer.StatefulSet a b ∈ syncersRun (Reconcile r request world).trace) :
    (∃ ops, Event.sync Syncer.ConfigMap ops a none ∈ (Reconcile r request world).trace) ∧
    (∃ ops, Event.sync Syncer.Secret ops b none ∈ (Reconcile r request world).trace) ∧
    (∀ rv, syncedAt (Reconcile r request world).trace Syncer.ConfigMap rv → rv = a) ∧
    (∀ rv, syncedAt (Reconcile r request world).trace Syncer.Secret rv → rv = b) := by
  have hm : ∃ ma, (Reconcile r request world).minAvailable = some ma := by
    cases hget : r.Get world request with
    | error err =>
      rw [(Reconcile_fetch_error r request world err hget).1] at h
      simp [syncersRun, Event.syncer] at h
    | ok c0 =>
      obtain ⟨t, d, c, htr, _, _, _, hsync, hdef⟩ := Reconcile_ok_spec r request world c0 hget
      rw [htr, (run_of_parts request t d hdef).1] at h
      rcases hsync with ⟨_, _, _, rfl, _⟩ | ⟨_, _, _, _, _, rfl, _⟩ |
        ⟨_, _, _, _, ma, _, _, hma, _⟩
      · simp [syncersRun, Event.syncer] at h
      · simp [syncersRun, Event.syncer] at h
      · exact ⟨ma, hma⟩
  obtain ⟨ma, hma⟩ := hm
  obtain ⟨init, ops1, rv1, ops2, rv2, t3, d, htr, hinit, hd, h3⟩ :=
    Reconcile_list_spec r request world ma hma
  have hnot : ∀ s, s = Syncer.ConfigMap ∨ s = Syncer.Secret → s ∉ syncersFor ma rv1 rv2 := by
    intro s hs hmem
    unfold syncersFor at hmem
    rcases hs with rfl | rfl <;> by_cases hl : len ma = 0 <;> simp [hl] at hmem
  have hab : a = rv1 ∧ b = rv2 := by
    rw [htr, (run_of_list_parts hinit hd h3).1] at h
    simp only [List.mem_append, List.mem_cons, List.not_mem_nil, or_false] at h
    rcases h with (h | h) | h
    · exact Syncer.noConfusion h
    · exact Syncer.noConfusion h
    · obtain ⟨ops, rv, e, hev⟩ := mem_syncersRun h
      obtain ⟨s, _, _, _, heq, hs⟩ := h3.1 _ hev
      simp only [Event.sync.injEq] at heq
      rw [← heq.1] at hs
      unfold syncersFor at hs
      by_cases hl : len ma = 0 <;> simp [hl] at hs <;> exact hs
  obtain ⟨rfl, rfl⟩ := hab
  have hmem : ∀ s ops rv e, (s = Syncer.ConfigMap ∨ s = Syncer.Secret) →
      Event.sync s ops rv e ∈ (Reconcile r request world).trace →
      Event.sync s ops rv e = Event.sync Syncer.ConfigMap ops1 a none ∨
      Event.sync s ops rv e = Event.sync Syncer.Secret ops2 b none := by
    intro s ops rv e hs hev
    rw [htr] at hev
    simp only [List.mem_append, List.mem_cons, List.not_mem_nil, or_false] at hev
    rcases hev with ((hev | hev) | hev) | hev
    · have := (hinit _ hev).1
      simp [Event.syncer] at this
    · rcases hev with hev | hev | hev | hev
      · exact Or.inl hev
      · exact Or.inr hev
      · exact Event.noConfusion hev
      · exact Event.noConfusion hev
    · obtain ⟨s1, _, _, _, heq, hs1⟩ := h3.1 _ hev
      simp only [Event.sync.injEq] at heq
      rw [← heq.1] at hs1
      exact (hnot s hs hs1).elim
    · have := (hd _ hev).1
      simp [Event.syncer] at this
  refine ⟨⟨ops1, by rw [htr]; simp⟩, ⟨ops2, by rw [htr]; simp⟩, ?_, ?_⟩
  · rintro rv ⟨ops, e, hev⟩
    rcases hmem _ _ _ _ (Or.inl rfl) hev with h | h
    · simp only [Event.sync.injEq] at h; exact h.2.2.1
    · simp only [Event.sync.injEq] at h; exact absurd h.1 (by decide)
  · rintro rv ⟨ops, e, hev⟩
    rcases hmem _ _ _ _ (Or.inr rfl) hev with h | h
    · simp only [Event.sync.injEq] at h; exact absurd h.1 (by decide)
    · simp only [Event.sync.injEq] at h; exact h.2.2.1

theorem watch_no_secret {ε : Type} (mgr : Manager ε) (ws : List WatchCall) (call : WatchCall)
    (hws : Kind.Secret ∉ watchedKinds ws) (hcall : call.src ≠ Kind.Secret) :
    Kind.Secret ∉ watchedKinds (watch mgr ws call).2 := by
  unfold watch
  cases mgr.Watch ws call with
  | some e => exact hws
  | none =>
    simp only [watchedKinds, List.map_append, List.map_cons, List.map_nil, List.mem_append,
      List.mem_singleton, not_or] at hws ⊢
    exact ⟨hws, fun h => hcall h.symm⟩

/-- Whatever the manager answers, `add` registers no watch on Secret. -/
theorem add_no_secret {ε : Type} (mgr : Manager ε) :
    Kind.Secret ∉ watchedKinds (add mgr).2 := by
  unfold add
  cases mgr.New with
  | some e => simp [watchedKinds]
  | none =>
    simp only
    have h1 := watch_no_secret mgr []
      ⟨Kind.MysqlCluster, EventHandler.EnqueueRequestForObject⟩ (by simp [watchedKinds])
      (by decide)
    generalize watch mgr [] ⟨Kind.MysqlCluster, EventHandler.EnqueueRequestForObject⟩ = w1
      at h1 ⊢
    rcases w1 with ⟨_ | e, ws1⟩
    swap
    · exact h1
    simp only
    have h2 := watch_no_secret mgr ws1
      ⟨Kind.StatefulSet, EventHandler.EnqueueRequestForOwner true Kind.MysqlCluster⟩ h1
      (by decide)
    generalize watch mgr ws1
      ⟨Kind.StatefulSet, EventHandler.EnqueueRequestForOwner true Kind.MysqlCluster⟩ = w2
      at h2 ⊢
    rcases w2 with ⟨_ | e, ws2⟩
    swap
    · exact h2
    simp only
    have h3 := watch_no_secret mgr ws2
      ⟨Kind.Service, EventHandler.EnqueueRequestForOwner true Kind.MysqlCluster⟩ h2
      (by decide)
    generalize watch mgr ws2
      ⟨Kind.Service, EventHandler.EnqueueRequestForOwner true Kind.MysqlCluster⟩ = w3
      at h3 ⊢
    rcases w3 with ⟨_ | e, ws3⟩
    swap
    · exact h3
    simp only
    have h4 := watch_no_secret mgr ws3
      ⟨Kind.ConfigMap, EventHandler.EnqueueRequestForOwner true Kind.MysqlCluster⟩ h3
      (by decide)
    generalize watch mgr ws3
      ⟨Kind.ConfigMap, EventHandler.EnqueueRequestForOwner true Kind.MysqlCluster⟩ = w4
      at h4 ⊢
    rcases w4 with ⟨_ | e, ws4⟩
    swap
    · exact h4
    simp only
    have h5 := watch_no_secret mgr ws4
      ⟨Kind.PodDisruptionBudget, EventHandler.EnqueueRequestForOwner true Kind.MysqlCluster⟩ h4
      (by decide)
    generalize watch mgr ws4
      ⟨Kind.PodDisruptionBudget, EventHandler.EnqueueRequestForOwner true Kind.MysqlCluster⟩ = w5
      at h5 ⊢
    rcases w5 with ⟨_ | e, ws5⟩ <;> exact h5

/-! ## Syncing against the store -/

theorem observed_Spec {β : Type} (logic : SyncerLogic α σ ε β) (s : Syncer)
    (c : MysqlCluster α σ) (p : Stored β) : (logic.observed s c p).Spec = c.Spec := by
  unfold SyncerLogic.observed
  cases logic.observe s c.Spec p <;> rfl

theorem observed_Status {β : Type} (logic : SyncerLogic α σ ε β) (s : Syncer)
    (c : MysqlCluster α σ) (p : Stored β) :
    (logic.observed s c p).Status = (logic.observe s c.Spec p).getD c.Status := by
  unfold SyncerLogic.observed
  cases logic.observe s c.Spec p <;> rfl

theorem observed_eq {β : Type} (logic : SyncerLogic α σ ε β) (s : Syncer)
    (c : MysqlCluster α σ) (p : Stored β) :
    logic.observed s c p = { c with Status := (logic.observe s c.Spec p).getD c.Status } := by
  unfold SyncerLogic.observed
  cases logic.observe s c.Spec p <;> rfl

theorem storeSync_facts {β : Type} [DecidableEq β] (logic : SyncerLogic α σ ε β) (s : Syncer)
    (c : MysqlCluster α σ) (w : Store α σ β) :
    (storeSync logic s c w).cluster.Spec = c.Spec ∧
    (storeSync logic s c w).world.key = w.key ∧
    (storeSync logic s c w).world.cluster = w.cluster ∧
    (∀ sl, sl ≠ s.slot → (storeSync logic s c w).world.children sl = w.children sl) ∧
    ((storeSync logic s c w).err = none →
      Settled logic c.Spec (storeSync logic s c w).world s ∧
      (storeSync logic s c w).resourceVersion = (storeSync logic s c w).world.token s.slot ∧
      (storeSync logic s c w).cluster.Status =
        statusAfter logic c.Spec (storeSync logic s c w).world s c.Status) := by
  unfold storeSync
  cases hd : logic.desiredBody s c.Spec with
  | error e => simp
  | ok desired =>
    cases hc : w.children s.slot with
    | none =>
      refine ⟨observed_Spec _ _ _ _, rfl, rfl, ?_, ?_⟩
      · intro sl hsl
        simp [Store.write, Function.update_noteq hsl]
      · intro _
        simp [Settled, Store.write, Store.token, statusAfter, hd, observed_Status]
    | some cur =>
      by_cases hb : cur.body = desired
      · dsimp only
        rw [if_pos hb]
        refine ⟨observed_Spec _ _ _ _, rfl, rfl, fun _ _ => rfl, ?_⟩
        intro _
        refine ⟨⟨cur, hc, by rw [hd, hb]⟩, ?_, ?_⟩
        · simp only [Store.token, hc]
        · simp only [statusAfter, hc, observed_Status]
      · dsimp only
        rw [if_neg hb]
        refine ⟨observed_Spec _ _ _ _, rfl, rfl, ?_, ?_⟩
        · intro sl hsl
          simp [Store.write, Function.update_noteq hsl]
        · intro _
          simp [Settled, Store.write, Store.token, statusAfter, hd, observed_Status]

/-- A syncer whose resource is persisted as desired writes nothing. -/
theorem storeSync_quiet {β : Type} [DecidableEq β] (logic : SyncerLogic α σ ε β) (s : Syncer)
    (c : MysqlCluster α σ) (w : Store α σ β) (h : Settled logic c.Spec w s) :
    storeSync logic s c w =
      { err := none, cluster := { c with Status := statusAfter logic c.Spec w s c.Status },
        world := w, ops := [], resourceVersion := w.token s.slot } := by
  obtain ⟨cur, hc, hd⟩ := h
  unfold storeSync
  simp only [hd, hc, if_true, Store.token, statusAfter, observed_eq]

/-- Settledness of a syncer depends on its own resource only. -/
theorem Settled_congr {β : Type} (logic : SyncerLogic α σ ε β) (spec : MysqlClusterSpec α)
    (w w2 : Store α σ β) (s : Syncer) (h : w2.children s.slot = w.children s.slot)
    (hs : Settled logic spec w s) : Settled logic spec w2 s := by
  obtain ⟨cur, hc, hd⟩ := hs
  exact ⟨cur, by rw [h, hc], hd⟩

theorem statusAfter_congr {β : Type} (logic : SyncerLogic α σ ε β) (spec : MysqlClusterSpec α)
    (w w2 : Store α σ β) (s : Syncer) (status : σ)
    (h : w2.children s.slot = w.children s.slot) :
    statusAfter logic spec w2 s status = statusAfter logic spec w s status := by
  simp only [statusAfter, h]

/-- The syncers of a list either all leave the status alone or end at a status that does not
depend on the one they started from. -/
theorem statusAfterAll_id_or_const {β : Type} (logic : SyncerLogic α σ ε β)
    (spec : MysqlClusterSpec α) (w : Store α σ β) (l : List Syncer) :
    (∀ x, statusAfterAll logic spec w l x = x) ∨
    (∃ v, ∀ x, statusAfterAll logic spec w l x = v) := by
  induction l with
  | nil => exact Or.inl (fun x => rfl)
  | cons s rest ih =>
    have hstep : ∀ x, statusAfterAll logic spec w (s :: rest) x =
        statusAfterAll logic spec w rest (statusAfter logic spec w s x) := fun x => rfl
    rcases ih with hid | ⟨v, hv⟩
    · have hs : (∀ x, statusAfter logic spec w s x = x) ∨
          (∃ v, ∀ x, statusAfter logic spec w s x = v) := by
        cases hc : w.children s.slot with
        | none => exact Or.inl (fun x => by simp [statusAfter, hc])
        | some cur =>
          cases ho : logic.observe s spec cur with
          | none => exact Or.inl (fun x => by simp [statusAfter, hc, ho])
          | some v => exact Or.inr ⟨v, fun x => by simp [statusAfter, hc, ho]⟩
      rcases hs with h1 | ⟨v, h1⟩
      · exact Or.inl (fun x => by rw [hstep, hid, h1])
      · exact Or.inr ⟨v, fun x => by rw [hstep, hid, h1]⟩
    · exact Or.inr ⟨v, fun x => by rw [hstep, hv]⟩

/-- Running the syncers again on the status they produced changes nothing. -/
theorem statusAfterAll_idem {β : Type} (logic : SyncerLogic α σ ε β)
    (spec : MysqlClusterSpec α) (w : Store α σ β) (l : List Syncer) (x : σ) :
    statusAfterAll logic spec w l (statusAfterAll logic spec w l x) =
      statusAfterAll logic spec w l x := by
  rcases statusAfterAll_id_or_const logic spec w l with h | ⟨v, h⟩
  · rw [h, h]
  · rw [h, h]

theorem reconcileSyncs_eq_loop (r : ReconcileMysqlCluster α σ ε W) (st : Run α σ ε W)
    (h1 : (r.Sync Syncer.ConfigMap st.cluster st.world).err = none)
    (h2 : (r.Sync Syncer.Secret (r.Sync Syncer.ConfigMap st.cluster st.world).cluster
      (r.Sync Syncer.ConfigMap st.cluster st.world).world).err = none) :
    reconcileSyncs r st =
      ({}, syncLoop r
        (buildSyncers
          (r.Sync Syncer.Secret (r.Sync Syncer.ConfigMap st.cluster st.world).cluster
            (r.Sync Syncer.ConfigMap st.cluster st.world).world).cluster
          (r.Sync Syncer.ConfigMap st.cluster st.world).resourceVersion
          (r.Sync Syncer.Secret (r.Sync Syncer.ConfigMap st.cluster st.world).cluster
            (r.Sync Syncer.ConfigMap st.cluster st.world).world).resourceVersion)
        { cluster := (r.Sync Syncer.Secret (r.Sync Syncer.ConfigMap st.cluster st.world).cluster
            (r.Sync Syncer.ConfigMap st.cluster st.world).world).cluster,
          world := (r.Sync Syncer.Secret (r.Sync Syncer.ConfigMap st.cluster st.world).cluster
            (r.Sync Syncer.ConfigMap st.cluster st.world).world).world,
          minAvailable := some (r.Sync Syncer.Secret
            (r.Sync Syncer.ConfigMap st.cluster st.world).cluster
            (r.Sync Syncer.ConfigMap st.cluster st.world).world).cluster.Spec.MinAvailable,
          trace := st.trace ++
            [Event.sync Syncer.ConfigMap (r.Sync Syncer.ConfigMap st.cluster st.world).ops
              (r.Sync Syncer.ConfigMap st.cluster st.world).resourceVersion none] ++
            [Event.sync Syncer.Secret
              (r.Sync Syncer.Secret (r.Sync Syncer.ConfigMap st.cluster st.world).cluster
                (r.Sync Syncer.ConfigMap st.cluster st.world).world).ops
              (r.Sync Syncer.Secret (r.Sync Syncer.ConfigMap st.cluster st.world).cluster
                (r.Sync Syncer.ConfigMap st.cluster st.world).world).resourceVersion none] ++
            [Event.getObject Syncer.ConfigMap, Event.getObject Syncer.Secret] }) := by
  generalize hc1 : r.Sync Syncer.ConfigMap st.cluster st.world = o1 at h1 h2 ⊢
  generalize hc2 : r.Sync Syncer.Secret o1.cluster o1.world = o2 at h2 ⊢
  generalize hloop : syncLoop r (buildSyncers o2.cluster o1.resourceVersion o2.resourceVersion)
    { cluster := o2.cluster, world := o2.world,
      minAvailable := some o2.cluster.Spec.MinAvailable,
      trace := st.trace ++ [Event.sync Syncer.ConfigMap o1.ops o1.resourceVersion none] ++
        [Event.sync Syncer.Secret o2.ops o2.resourceVersion none] ++
        [Event.getObject Syncer.ConfigMap, Event.getObject Syncer.Secret] } = out
  simp only [reconcileSyncs, runSync, hc1, h1, hc2, h2, hloop]
  rcases out with ⟨_ | e, st2⟩ <;> rfl

theorem reconcileSyncs_err_none (r : ReconcileMysqlCluster α σ ε W) (st : Run α σ ε W)
    (h : (reconcileSyncs r st).2.1 = none) :
    (r.Sync Syncer.ConfigMap st.cluster st.world).err = none ∧
    (r.Sync Syncer.Secret (r.Sync Syncer.ConfigMap st.cluster st.world).cluster
      (r.Sync Syncer.ConfigMap st.cluster st.world).world).err = none := by
  cases h1 : (r.Sync Syncer.ConfigMap st.cluster st.world).err with
  | some e => simp [reconcileSyncs, runSync, h1] at h
  | none =>
    refine ⟨rfl, ?_⟩
    cases h2 : (r.Sync Syncer.Secret (r.Sync Syncer.ConfigMap st.cluster st.world).cluster
        (r.Sync Syncer.ConfigMap st.cluster st.world).world).err with
    | some e => simp [reconcileSyncs, runSync, h1, h2] at h
    | none => rfl

theorem Reconcile_ok_eq [DecidableEq σ] (r : ReconcileMysqlCluster α σ ε W)
    (request : NamespacedName) (world : W) (c0 : MysqlCluster α σ)
    (hget : r.Get world request = Except.ok c0) (out : Result × Option ε × Run α σ ε W)
    (hout : reconcileSyncs r
        { cluster := setDefaults r c0, world := world, trace :=
            [Event.get request, Event.logInfo, Event.schemeDefault, Event.setDefaults] } = out) :
    Reconcile r request world =
      { result := out.1, err := out.2.1,
        trace := (deferred r (setDefaults r c0).Status out.2.2).trace,
        world := (deferred r (setDefaults r c0).Status out.2.2).world,
        snapshot := some (setDefaults r c0).Status, cluster := some out.2.2.cluster,
        minAvailable := (deferred r (setDefaults r c0).Status out.2.2).minAvailable } := by
  simp only [Reconcile, hget, hout]

theorem slots_nodup (m a b : String) : ((syncersFor m a b).map Syncer.slot).Nodup ∧
    Slot.ConfigMap ∉ (syncersFor m a b).map Syncer.slot ∧
    Slot.Secret ∉ (syncersFor m a b).map Syncer.slot := by
  unfold syncersFor
  by_cases h : len m = 0 <;> simp [h, Syncer.slot]

theorem storeLoop_settles {β : Type} [DecidableEq β] (logic : SyncerLogic α σ ε β)
    (l : List Syncer) (hnd : (l.map Syncer.slot).Nodup) :
    ∀ st : Run α σ ε (Store α σ β), (syncLoop (storeReconciler logic) l st).1 = none →
      (syncLoop (storeReconciler logic) l st).2.cluster.Spec = st.cluster.Spec ∧
      (syncLoop (storeReconciler logic) l st).2.world.key = st.world.key ∧
      (syncLoop (storeReconciler logic) l st).2.world.cluster = st.world.cluster ∧
      (∀ sl, sl ∉ l.map Syncer.slot →
        (syncLoop (storeReconciler logic) l st).2.world.children sl = st.world.children sl) ∧
      (∀ s ∈ l, Settled logic st.cluster.Spec (syncLoop (storeReconciler logic) l st).2.world s) ∧
      (syncLoop (storeReconciler logic) l st).2.cluster.Status =
        statusAfterAll logic st.cluster.Spec (syncLoop (storeReconciler logic) l st).2.world l
          st.cluster.Status := by
  induction l with
  | nil =>
    intro st _
    simp [syncLoop, statusAfterAll]
  | cons s rest ih =>
    intro st herr
    have hf := storeSync_facts logic s st.cluster st.world
    cases h1 : (storeSync logic s st.cluster st.world).err with
    | some e =>
      simp [syncLoop, runSync, storeReconciler, h1] at herr
    | none =>
      have hloop : syncLoop (storeReconciler logic) (s :: rest) st =
          syncLoop (storeReconciler logic) rest
            { st with cluster := (storeSync logic s st.cluster st.world).cluster,
                      world := (storeSync logic s st.cluster st.world).world,
                      trace := st.trace ++ [Event.sync s (storeSync logic s st.cluster st.world).ops
                        (storeSync logic s st.cluster st.world).resourceVersion none] } := by
        simp [syncLoop, runSync, storeReconciler, h1]
      rw [hloop] at herr ⊢
      simp only [List.map_cons, List.nodup_cons] at hnd
      obtain ⟨i1, i2, i3, i4, i5, i6⟩ := ih hnd.2 _ herr
      simp only at i1 i2 i3 i4 i5 i6
      obtain ⟨f1, f2, f3, f4, f5⟩ := hf
      refine ⟨by rw [i1, f1], by rw [i2, f2], by rw [i3, f3], ?_, ?_, ?_⟩
      · intro sl hsl
        simp only [List.map_cons, List.mem_cons, not_or] at hsl
        rw [i4 sl hsl.2, f4 sl hsl.1]
      · intro s1 hs1
        rcases List.mem_cons.mp hs1 with rfl | hs1
        · exact Settled_congr logic _ _ _ _ (i4 _ hnd.1) (f5 h1).1
        · rw [← f1]; exact i5 s1 hs1
      · rw [i6, f1, (f5 h1).2.2, ← statusAfter_congr logic _ _ _ s _ (i4 _ hnd.1)]
        rfl

theorem storeLoop_quiet {β : Type} [DecidableEq β] (logic : SyncerLogic α σ ε β)
    (l : List Syncer) :
    ∀ st : Run α σ ε (Store α σ β), (∀ s ∈ l, Settled logic st.cluster.Spec st.world s) →
      syncLoop (storeReconciler logic) l st =
        (none,
          { st with
            cluster := { st.cluster with
              Status := statusAfterAll logic st.cluster.Spec st.world l st.cluster.Status },
            trace := st.trace ++ l.map (fun s => Event.sync s [] (st.world.token s.slot) none) }) := by
  induction l with
  | nil =>
    intro st _
    simp [syncLoop, statusAfterAll]
  | cons s rest ih =>
    intro st hset
    have hs := storeSync_quiet logic s st.cluster st.world (hset s (List.mem_cons_self _ _))
    have hloop : syncLoop (storeReconciler logic) (s :: rest) st =
        syncLoop (storeReconciler logic) rest
          { st with
            cluster := { st.cluster with
              Status := statusAfter logic st.cluster.Spec st.world s st.cluster.Status },
            trace := st.trace ++ [Event.sync s [] (st.world.token s.slot) none] } := by
      simp [syncLoop, runSync, storeReconciler, hs]
    have hrest := ih
      { st with
        cluster := { st.cluster with
          Status := statusAfter logic st.cluster.Spec st.world s st.cluster.Status },
        trace := st.trace ++ [Event.sync s [] (st.world.token s.slot) none] }
      (fun s1 hs1 => hset s1 (List.mem_cons_of_mem _ hs1))
    rw [hloop, hrest]
    simp [statusAfterAll]

theorem token_congr {β : Type} (w w2 : Store α σ β) (sl : Slot)
    (h : w2.children sl = w.children sl) : w2.token sl = w.token sl := by
  simp only [Store.token, h]

/-- A run of the syncers that returns no error leaves every child resource persisted as
desired, leaves the persisted cluster alone, and ends with the status the syncers recompute
from the store as they left it. -/
theorem storeSyncs_converge {β : Type} [DecidableEq β] (logic : SyncerLogic α σ ε β)
    (st : Run α σ ε (Store α σ β))
    (herr : (reconcileSyncs (storeReconciler logic) st).2.1 = none) :
    (reconcileSyncs (storeReconciler logic) st).2.2.cluster.Spec = st.cluster.Spec ∧
    (reconcileSyncs (storeReconciler logic) st).2.2.world.key = st.world.key ∧
    (reconcileSyncs (storeReconciler logic) st).2.2.world.cluster = st.world.cluster ∧
    Converged logic st.cluster.Spec (reconcileSyncs (storeReconciler logic) st).2.2.world ∧
    (reconcileSyncs (storeReconciler logic) st).2.2.cluster.Status =
      statusAfterAll logic st.cluster.Spec (reconcileSyncs (storeReconciler logic) st).2.2.world
        ([Syncer.ConfigMap, Syncer.Secret] ++ syncersFor st.cluster.Spec.MinAvailable
          ((reconcileSyncs (storeReconciler logic) st).2.2.world.token Slot.ConfigMap)
          ((reconcileSyncs (storeReconciler logic) st).2.2.world.token Slot.Secret))
        st.cluster.Status := by
  obtain ⟨h1, h2⟩ := reconcileSyncs_err_none _ st herr
  have heq := reconcileSyncs_eq_loop _ st h1 h2
  have hS : (storeReconciler logic).Sync = storeSync logic := rfl
  simp only [hS] at heq h1 h2
  obtain ⟨a1, a2, a3, a4, a5⟩ := storeSync_facts logic Syncer.ConfigMap st.cluster st.world
  obtain ⟨b1, b2, b3, b4, b5⟩ := storeSync_facts logic Syncer.Secret
    (storeSync logic Syncer.ConfigMap st.cluster st.world).cluster
    (storeSync logic Syncer.ConfigMap st.cluster st.world).world
  generalize storeSync logic Syncer.ConfigMap st.cluster st.world = o1 at *
  generalize storeSync logic Syncer.Secret o1.cluster o1.world = o2 at *
  rw [heq] at herr ⊢
  simp only at herr ⊢
  rw [buildSyncers_eq] at herr ⊢
  obtain ⟨hnd, hn1, hn2⟩ := slots_nodup o2.cluster.Spec.MinAvailable o1.resourceVersion
    o2.resourceVersion
  obtain ⟨i1, i2, i3, i4, i5, i6⟩ := storeLoop_settles logic _ hnd _ herr
  simp only at i1 i2 i3 i4 i5 i6
  generalize (syncLoop (storeReconciler logic)
    (syncersFor o2.cluster.Spec.MinAvailable o1.resourceVersion o2.resourceVersion) _).2 = fin
    at i1 i2 i3 i4 i5 i6 ⊢
  have hspec : o2.cluster.Spec = st.cluster.Spec := b1.trans a1
  have c1 : fin.world.children Slot.ConfigMap = o1.world.children Slot.ConfigMap := by
    rw [i4 _ hn1]; exact b4 _ (by decide)
  have c2 : fin.world.children Slot.Secret = o2.world.children Slot.Secret := i4 _ hn2
  have t1 : fin.world.token Slot.ConfigMap = o1.resourceVersion := by
    rw [token_congr _ _ _ c1]; exact (a5 h1).2.1.symm
  have t2 : fin.world.token Slot.Secret = o2.resourceVersion := by
    rw [token_congr _ _ _ c2]; exact (b5 h2).2.1.symm
  refine ⟨i1.trans hspec, by rw [i2, b2, a2], by rw [i3, b3, a3], ⟨?_, ?_, ?_⟩, ?_⟩
  · exact Settled_congr logic _ _ _ _ c1 (a5 h1).1
  · have := (b5 h2).1
    rw [a1] at this
    exact Settled_congr logic _ _ _ _ c2 this
  · rw [t1, t2, ← hspec]
    exact i5
  · rw [t1, t2, i6, (b5 h2).2.2, (a5 h1).2.2, hspec, a1,
      ← statusAfter_congr logic _ _ _ Syncer.ConfigMap _ c1,
      ← statusAfter_congr logic _ _ _ Syncer.Secret _ c2]
    rfl

/-- On a store where every child resource is persisted as desired, the syncers write
nothing; the status they end with is the one they recompute from the store. -/
theorem storeSyncs_quiet {β : Type} [DecidableEq β] (logic : SyncerLogic α σ ε β)
    (st : Run α σ ε (Store α σ β)) (hconv : Converged logic st.cluster.Spec st.world) :
    reconcileSyncs (storeReconciler logic) st =
      ({}, none,
        { st with
          cluster := { st.cluster with
            Status := statusAfterAll logic st.cluster.Spec st.world
              ([Syncer.ConfigMap, Syncer.Secret] ++ syncersFor st.cluster.Spec.MinAvailable
                (st.world.token Slot.ConfigMap) (st.world.token Slot.Secret))
              st.cluster.Status },
          minAvailable := some st.cluster.Spec.MinAvailable,
          trace := st.trace ++
            [Event.sync Syncer.ConfigMap [] (st.world.token Slot.ConfigMap) none] ++
            [Event.sync Syncer.Secret [] (st.world.token Slot.Secret) none] ++
            [Event.getObject Syncer.ConfigMap, Event.getObject Syncer.Secret] ++
            (syncersFor st.cluster.Spec.MinAvailable (st.world.token Slot.ConfigMap)
              (st.world.token Slot.Secret)).map
                (fun s => Event.sync s [] (st.world.token s.slot) none) }) := by
  have hS : (storeReconciler logic).Sync = storeSync logic := rfl
  have q1 := storeSync_quiet logic Syncer.ConfigMap st.cluster st.world hconv.1
  have q2 := storeSync_quiet logic Syncer.Secret
    { st.cluster with
      Status := statusAfter logic st.cluster.Spec st.world Syncer.ConfigMap st.cluster.Status }
    st.world hconv.2.1
  have h1 : ((storeReconciler logic).Sync Syncer.ConfigMap st.cluster st.world).err = none := by
    rw [hS, q1]
  have h2 : ((storeReconciler logic).Sync Syncer.Secret
      ((storeReconciler logic).Sync Syncer.ConfigMap st.cluster st.world).cluster
      ((storeReconciler logic).Sync Syncer.ConfigMap st.cluster st.world).world).err = none := by
    rw [hS, q1]; simp only; rw [q2]
  rw [reconcileSyncs_eq_loop _ st h1 h2]
  simp only [hS, q1, q2, buildSyncers_eq]
  exact congrArg (Prod.mk _) (storeLoop_quiet logic
    (syncersFor st.cluster.Spec.MinAvailable (st.world.token Slot.ConfigMap)
      (st.world.token Slot.Secret))
    { cluster := { st.cluster with
        Status := statusAfter logic st.cluster.Spec st.world Syncer.Secret
          (statusAfter logic st.cluster.Spec st.world Syncer.ConfigMap st.cluster.Status) },
      world := st.world,
      trace := st.trace ++
        [Event.sync Syncer.ConfigMap [] (st.world.token Slot.ConfigMap) none] ++
        [Event.sync Syncer.Secret [] (st.world.token Slot.Secret) none] ++
        [Event.getObject Syncer.ConfigMap, Event.getObject Syncer.Secret],
      minAvailable := some st.cluster.Spec.MinAvailable } hconv.2.2)

theorem statusAfterAll_congr {β : Type} (logic : SyncerLogic α σ ε β)
    (spec : MysqlClusterSpec α) (w w2 : Store α σ β) (h : w2.children = w.children)
    (l : List Syncer) (x : σ) :
    statusAfterAll logic spec w2 l x = statusAfterAll logic spec w l x := by
  simp only [statusAfterAll, statusAfter, h]

theorem Converged_congr {β : Type} (logic : SyncerLogic α σ ε β) (spec : MysqlClusterSpec α)
    (w w2 : Store α σ β) (h : w2.children = w.children) (hc : Converged logic spec w) :
    Converged logic spec w2 := by
  simp only [Converged, Settled, Store.token, h] at hc ⊢
  exact hc

theorem storeGet_ok {β : Type} [DecidableEq β] (logic : SyncerLogic α σ ε β)
    (w : Store α σ β) (request : NamespacedName) (c0 : MysqlCluster α σ) :
    (storeReconciler logic).Get w request = Except.ok c0 ↔
      request = w.key ∧ w.cluster = some c0 := by
  simp only [storeReconciler]
  by_cases hk : request = w.key
  · cases hc : w.cluster <;> simp [hk]
  · simp [hk]

/-- Over the store, the deferred function leaves the child resources alone and leaves the
persisted cluster with the status the attempt ended with. -/
theorem deferred_store {β : Type} [DecidableEq β] [DecidableEq σ]
    (logic : SyncerLogic α σ ε β) (st : Run α σ ε (Store α σ β)) (c0 : MysqlCluster α σ)
    (hst : st.world.cluster = some c0) :
    (deferred (storeReconciler logic) c0.Status st).world.key = st.world.key ∧
    (deferred (storeReconciler logic) c0.Status st).world.children = st.world.children ∧
    (deferred (storeReconciler logic) c0.Status st).world.cluster =
      some { c0 with Status := st.cluster.Status } := by
  unfold deferred
  by_cases h : c0.Status = st.cluster.Status
  · simp only [ne_eq, h, not_true_eq_false, if_false, hst]
    refine ⟨trivial, trivial, ?_⟩
    rw [← h]
  · simp only [ne_eq, h, not_false_eq_true, if_true, storeReconciler, hst, Option.map_some']
    exact ⟨trivial, trivial, trivial⟩

theorem quiet_events (l : List Syncer) (f : Syncer → String) :
    clientOps (l.map (fun s => (Event.sync s [] (f s) none : Event ε))) = [] ∧
    statusUpdates (l.map (fun s => (Event.sync s [] (f s) none : Event ε))) = 0 := by
  induction l with
  | nil => simp [clientOps, statusUpdates]
  | cons s rest ih =>
    simp only [clientOps, statusUpdates] at ih ⊢
    simp [Event.ops, Event.isStatusUpdate, ih.1, ih.2]

/-! ## The attempts that end at the fetch -/

/-- C1: when fetching the MysqlCluster returns a NotFound error, Reconcile returns the empty
Result with a nil error; the fetch is the only call it makes, so it performs no defaulting,
runs no syncer, issues no create or update and no status update, and leaves the world as it
found it. -/
theorem C1_not_found_is_success [DecidableEq σ] (r : ReconcileMysqlCluster α σ ε W)
    (request : NamespacedName) (world : W) (err : ε)
    (hget : r.Get world request = Except.error err) (hnf : r.IsNotFound err = true) :
    (Reconcile r request world).result = {} ∧
    (Reconcile r request world).err = none ∧
    (Reconcile r request world).trace = [Event.get request] ∧
    Event.schemeDefault ∉ (Reconcile r request world).trace ∧
    Event.setDefaults ∉ (Reconcile r request world).trace ∧
    syncersRun (Reconcile r request world).trace = [] ∧
    clientOps (Reconcile r request world).trace = [] ∧
    statusUpdates (Reconcile r request world).trace = 0 ∧
    (Reconcile r request world).world = world := by
  simp [Reconcile, hget, hnf, syncersRun, clientOps, statusUpdates, Event.syncer, Event.ops,
    Event.isStatusUpdate]

theorem C1_not_found_is_success_witness :
    (Reconcile (sample (Except.error 404) none) sampleRequest 0).err = none ∧
    (Reconcile (sample (Except.error 404) none) sampleRequest 0).trace =
      [Event.get sampleRequest] :=
  have h := C1_not_found_is_success (sample (Except.error 404) none) sampleRequest 0 404 rfl rfl
  ⟨h.2.1, h.2.2.1⟩

/-- C10: when fetching the MysqlCluster fails with an error that is not NotFound, Reconcile
returns that error with the empty Result, runs no syncer, takes no status snapshot and issues
no status update; and on every path the Result returned is the empty Result. -/
theorem C10_fetch_error_and_empty_result [DecidableEq σ] (r : ReconcileMysqlCluster α σ ε W)
    (request : NamespacedName) (world : W) :
    (∀ err, r.Get world request = Except.error err → r.IsNotFound err = false →
      (Reconcile r request world).err = some err ∧
      (Reconcile r request world).result = {} ∧
      (Reconcile r request world).trace = [Event.get request] ∧
      syncersRun (Reconcile r request world).trace = [] ∧
      (Reconcile r request world).snapshot = none ∧
      statusUpdates (Reconcile r request world).trace = 0) ∧
    (Reconcile r request world).result = {} := by
  constructor
  · intro err hget hnf
    simp [Reconcile, hget, hnf, syncersRun, statusUpdates, Event.syncer, Event.isStatusUpdate]
  · exact Reconcile_result r request world

theorem C10_fetch_error_and_empty_result_witness :
    (Reconcile (sample (Except.error 500) none) sampleRequest 0).err = some 500 ∧
    (Reconcile (sample (Except.error 500) none) sampleRequest 0).snapshot = none :=
  have h := (C10_fetch_error_and_empty_result (sample (Except.error 500) none)
    sampleRequest 0).1 500 rfl rfl
  ⟨h.1, h.2.2.2.2.1⟩

/-! ## The status update -/

/-- C3: in every attempt whose fetch succeeds, whether the syncers succeed or one fails,
the number of status updates issued is one when the cluster status at return differs from
the snapshot taken after defaulting, and zero when the two are equal. -/
theorem C3_status_update_iff_changed [DecidableEq σ] (r : ReconcileMysqlCluster α σ ε W)
    (request : NamespacedName) (world : W) (c0 : MysqlCluster α σ)
    (hget : r.Get world request = Except.ok c0) :
    ∃ c, (Reconcile r request world).cluster = some c ∧
      (Reconcile r request world).snapshot = some (setDefaults r c0).Status ∧
      (statusUpdates (Reconcile r request world).trace = 1 ↔
        (setDefaults r c0).Status ≠ c.Status) ∧
      (statusUpdates (Reconcile r request world).trace = 0 ↔
        (setDefaults r c0).Status = c.Status) ∧
      statusUpdates (Reconcile r request world).trace ≤ 1 := by
  obtain ⟨t, d, c, htr, _, hsnap, hc, hsync, hdef⟩ := Reconcile_ok_spec r request world c0 hget
  have hd := (DeferredPart_facts hdef).2.2.2.2.2
  have ht : statusUpdates t = 0 := by
    rcases hsync with ⟨_, _, _, rfl, _⟩ | ⟨_, _, _, _, _, rfl, _⟩ | ⟨_, _, _, _, _, t3, rfl, _, h3⟩
    · simp [statusUpdates, Event.isStatusUpdate]
    · simp [statusUpdates, Event.isStatusUpdate]
    · have := (LoopPart_facts h3).1
      simp only [statusUpdates] at this
      simp [statusUpdates, Event.isStatusUpdate, this]
  have hcount : statusUpdates (Reconcile r request world).trace =
      if (setDefaults r c0).Status = c.Status then 0 else 1 := by
    rw [htr]
    simp only [statusUpdates] at ht hd
    simp [statusUpdates, Event.isStatusUpdate, ht, hd]
  refine ⟨c, hc, hsnap, ?_, ?_, ?_⟩ <;> rw [hcount] <;>
    by_cases h : (setDefaults r c0).Status = c.Status <;> simp [h]

theorem C3_status_update_iff_changed_witness :
    ∃ c, (Reconcile (sample (Except.ok (sampleCluster "")) (some Kind.Secret))
        sampleRequest 0).cluster = some c ∧
      (Reconcile (sample (Except.ok (sampleCluster "")) (some Kind.Secret))
        sampleRequest 0).snapshot =
        some (setDefaults (sample (Except.ok (sampleCluster "")) (some Kind.Secret))
          (sampleCluster "")).Status ∧
      (statusUpdates (Reconcile (sample (Except.ok (sampleCluster "")) (some Kind.Secret))
          sampleRequest 0).trace = 1 ↔
        (setDefaults (sample (Except.ok (sampleCluster "")) (some Kind.Secret))
          (sampleCluster "")).Status ≠ c.Status) ∧
      (statusUpdates (Reconcile (sample (Except.ok (sampleCluster "")) (some Kind.Secret))
          sampleRequest 0).trace = 0 ↔
        (setDefaults (sample (Except.ok (sampleCluster "")) (some Kind.Secret))
          (sampleCluster "")).Status = c.Status) ∧
      statusUpdates (Reconcile (sample (Except.ok (sampleCluster "")) (some Kind.Secret))
        sampleRequest 0).trace ≤ 1 :=
  C3_status_update_iff_changed (sample (Except.ok (sampleCluster "")) (some Kind.Secret))
    sampleRequest 0 (sampleCluster "") rfl

/-! ## Failure of a syncer -/

/-- C2: when some syncer's Sync fails, Reconcile returns exactly that syncer's error; the
syncers run up to and including the failed one form an initial segment of the order config
map, secret, headless service, master service, healthy service, statefulset, PDB, all
before the failed one having succeeded; after the failed Sync no syncer is run and no
create or update is issued (only the deferred status update may follow).  In particular,
when the secret sync fails, the syncers run are the config map and the secret only. -/
theorem C2_first_failure_is_returned [DecidableEq σ] (r : ReconcileMysqlCluster α σ ε W)
    (request : NamespacedName) (world : W) (pre post : List (Event ε)) (s : Syncer)
    (ops : List ClientOp) (rv : String) (e : ε)
    (htrace : (Reconcile r request world).trace = pre ++ Event.sync s ops rv (some e) :: post) :
    (Reconcile r request world).err = some e ∧
    (Reconcile r request world).result = {} ∧
    Clean pre ∧
    (∃ a b, syncersRun pre ++ [s] <+: [Syncer.ConfigMap, Syncer.Secret, Syncer.HeadlessSVC,
      Syncer.MasterSVC, Syncer.HealthySVC, Syncer.StatefulSet a b, Syncer.PDB]) ∧
    (∀ ev ∈ post, ev.isDeferred = true) ∧
    syncersRun (Reconcile r request world).trace = syncersRun pre ++ [s] ∧
    clientOps (Reconcile r request world).trace = clientOps pre ++ ops ∧
    (s = Syncer.Secret →
      syncersRun (Reconcile r request world).trace = [Syncer.ConfigMap, Syncer.Secret]) := by
  obtain ⟨s1, ops1, rv1, e1, hf, herr, hpre, _, hpost, hsr, hco, a, b, hprefix⟩ :=
    Reconcile_failure_spec r request world pre post (Event.sync s ops rv (some e)) rfl htrace
  simp only [Event.sync.injEq, Option.some.injEq] at hf
  obtain ⟨rfl, rfl, rfl, rfl⟩ := hf
  have hrun : syncersRun (Reconcile r request world).trace = syncersRun pre ++ [s] := by
    rw [htrace]
    simp only [syncersRun] at hsr
    simp [syncersRun, Event.syncer, hsr]
  have hops : clientOps (Reconcile r request world).trace = clientOps pre ++ ops := by
    rw [htrace]
    simp only [clientOps] at hco
    simp [clientOps, Event.ops, hco]
  refine ⟨herr, Reconcile_result r request world, hpre, ⟨a, b, hprefix⟩,
    hpost, hrun, hops, ?_⟩
  intro hs
  subst hs
  rw [hrun]
  obtain ⟨rest, hrest⟩ := hprefix
  generalize syncersRun pre = L at hrest
  rcases L with _ | ⟨x1, _ | ⟨x2, _ | ⟨x3, _ | ⟨x4, _ | ⟨x5, _ | ⟨x6, _ | ⟨x7, L⟩⟩⟩⟩⟩⟩⟩ <;>
    simp_all

theorem C2_first_failure_is_returned_witness :
    (Reconcile (sample (Except.ok (sampleCluster "50%")) (some Kind.Secret))
      sampleRequest 0).err = some 500 ∧
    syncersRun (Reconcile (sample (Except.ok (sampleCluster "50%")) (some Kind.Secret))
      sampleRequest 0).trace = [Syncer.ConfigMap, Syncer.Secret] :=
  have h := C2_first_failure_is_returned (sample (Except.ok (sampleCluster "50%"))
    (some Kind.Secret)) sampleRequest 0
    [Event.get sampleRequest, Event.logInfo, Event.schemeDefault, Event.setDefaults,
      Event.sync Syncer.ConfigMap [ClientOp.create Kind.ConfigMap "db"] "7" none]
    [Event.statusUpdate none] Syncer.Secret [ClientOp.create Kind.Secret "db"] "9" 500 rfl
  ⟨h.1, h.2.2.2.2.2.2.2 rfl⟩

/-! ## Errors that are and are not returned -/

/-- C4 as stated fails: a NotFound error of the fetch is an error of the attempt that is not
returned, although no status write is involved. -/
theorem C4_not_found_error_is_not_returned :
    (sample (Except.error 404) none).Get 0 sampleRequest = Except.error 404 ∧
    (Reconcile (sample (Except.error 404) none) sampleRequest 0).err = none ∧
    statusUpdates (Reconcile (sample (Except.error 404) none) sampleRequest 0).trace = 0 :=
  ⟨rfl, rfl, rfl⟩

/-- C4 (amended): the Result and error returned do not depend on what the status update
does, so a failed status write is never returned; every fetch error other than NotFound and
every error of a Sync is returned, while a NotFound fetch error is turned into a nil error;
and an error returned is always the error of the fetch or of a Sync. -/
theorem C4_status_write_outcome_is_not_returned [DecidableEq σ]
    (r : ReconcileMysqlCluster α σ ε W) (request : NamespacedName) (world : W) :
    (∀ upd : MysqlCluster α σ → W → Option ε × W,
      (Reconcile { r with StatusUpdate := upd } request world).result =
        (Reconcile r request world).result ∧
      (Reconcile { r with StatusUpdate := upd } request world).err =
        (Reconcile r request world).err) ∧
    (∀ e, r.Get world request = Except.error e → r.IsNotFound e = false →
      (Reconcile r request world).err = some e) ∧
    (∀ e, r.Get world request = Except.error e → r.IsNotFound e = true →
      (Reconcile r request world).err = none) ∧
    (∀ s ops rv e, Event.sync s ops rv (some e) ∈ (Reconcile r request world).trace →
      (Reconcile r request world).err = some e) ∧
    (∀ e, (Reconcile r request world).err = some e →
      r.Get world request = Except.error e ∨
      ∃ s ops rv, Event.sync s ops rv (some e) ∈ (Reconcile r request world).trace) := by
  refine ⟨?_, ?_, ?_, ?_, ?_⟩
  · intro upd
    cases hget : r.Get world request with
    | error err =>
      by_cases hnf : r.IsNotFound err = true <;> simp [Reconcile, hget, hnf]
    | ok c0 =>
      have h1 : setDefaults { r with StatusUpdate := upd } c0 = setDefaults r c0 := rfl
      simp [Reconcile, hget, reconcileSyncs_StatusUpdate, h1]
  · intro e hget hnf
    simp [(Reconcile_fetch_error r request world e hget).2.2, hnf]
  · intro e hget hnf
    simp [(Reconcile_fetch_error r request world e hget).2.2, hnf]
  · intro s ops rv e hmem
    obtain ⟨pre, post, htrace⟩ := List.append_of_mem hmem
    exact (failed_sync_is_returned r request world pre post s ops rv e htrace)
  · intro e herr
    cases hget : r.Get world request with
    | error err =>
      have h := (Reconcile_fetch_error r request world err hget).2.2
      by_cases hnf : r.IsNotFound err = true
      · rw [herr] at h; simp [hnf] at h
      · rw [herr] at h
        simp only [hnf, Bool.false_eq_true, if_false, Option.some.injEq] at h
        exact Or.inl (by rw [h])
    | ok c0 =>
      obtain ⟨t, d, c, htr, _, _, _, hsync, _⟩ := Reconcile_ok_spec r request world c0 hget
      rcases SyncPart_cases hsync with ⟨hn, _⟩ | ⟨e1, t0, s, ops, rv, he, ht, _⟩
      · rw [herr] at hn; exact Option.noConfusion hn
      · rw [herr] at he
        simp only [Option.some.injEq] at he
        subst he
        exact Or.inr ⟨s, ops, rv, by rw [htr, ht]; simp⟩

theorem C4_status_write_outcome_is_not_returned_witness :
    (Reconcile (sample (Except.error 500) none) sampleRequest 0).err = some 500 ∧
    (Reconcile (sample (Except.error 404) none) sampleRequest 0).err = none ∧
    (Reconcile (sample (Except.ok (sampleCluster "")) (some Kind.Service))
      sampleRequest 0).err = some 500 :=
  ⟨(C4_status_write_outcome_is_not_returned (sample (Except.error 500) none)
      sampleRequest 0).2.1 500 rfl rfl,
    (C4_status_write_outcome_is_not_returned (sample (Except.error 404) none)
      sampleRequest 0).2.2.1 404 rfl rfl,
    (C4_status_write_outcome_is_not_returned (sample (Except.ok (sampleCluster ""))
      (some Kind.Service)) sampleRequest 0).2.2.2.1 Syncer.HeadlessSVC
      [ClientOp.create Kind.Service "db"] "1" 500 (by decide)⟩

/-! ## Which syncers run, and in which order -/

/-- C5: the PodDisruptionBudget syncer is never run when line 186 is not reached or reads an
empty MinAvailable.  When line 186 reads a MinAvailable `m` and every Sync of another syncer
succeeded, the syncers run are config map, secret, headless service, master service,
healthy service and statefulset, followed by the PodDisruptionBudget syncer exactly when `m`
is non-empty: it is then run once, last, and the other syncers are the same as for an empty
MinAvailable.  The MinAvailable read is that of the cluster as the secret sync left it. -/
theorem C5_pdb_only_with_minAvailable [DecidableEq σ] (r : ReconcileMysqlCluster α σ ε W)
    (request : NamespacedName) (world : W) :
    ((Reconcile r request world).minAvailable = none ∨
        (Reconcile r request world).minAvailable = some "" →
      Syncer.PDB ∉ syncersRun (Reconcile r request world).trace) ∧
    (∀ m, (Reconcile r request world).minAvailable = some m →
      (∀ ev ∈ (Reconcile r request world).trace,
        ev.syncer ≠ some Syncer.PDB → ev.failed = false) →
      ∃ a b, syncersRun (Reconcile r request world).trace =
        [Syncer.ConfigMap, Syncer.Secret, Syncer.HeadlessSVC, Syncer.MasterSVC,
          Syncer.HealthySVC, Syncer.StatefulSet a b] ++
        (if m = "" then [] else [Syncer.PDB])) ∧
    (∀ c0, r.Get world request = Except.ok c0 →
      (r.Sync Syncer.ConfigMap (setDefaults r c0) world).err = none →
      (r.Sync Syncer.Secret (r.Sync Syncer.ConfigMap (setDefaults r c0) world).cluster
        (r.Sync Syncer.ConfigMap (setDefaults r c0) world).world).err = none →
      (Reconcile r request world).minAvailable =
        some (r.Sync Syncer.Secret (r.Sync Syncer.ConfigMap (setDefaults r c0) world).cluster
          (r.Sync Syncer.ConfigMap (setDefaults r c0) world).world).cluster.Spec.MinAvailable) := by
  refine ⟨?_, ?_, ?_⟩
  · intro hm hmem
    rcases hm with hm | hm
    · cases hget : r.Get world request with
      | error err =>
        rw [(Reconcile_fetch_error r request world err hget).1] at hmem
        simp [syncersRun, Event.syncer] at hmem
      | ok c0 =>
        obtain ⟨t, d, c, htr, _, _, _, hsync, hdef⟩ := Reconcile_ok_spec r request world c0 hget
        rw [htr, (run_of_parts request t d hdef).1] at hmem
        rw [hm] at hsync
        rcases hsync with ⟨_, _, _, rfl, _⟩ | ⟨_, _, _, _, _, rfl, _⟩ | ⟨_, _, _, _, _, _, _, h, _⟩
        · simp [syncersRun, Event.syncer] at hmem
        · simp [syncersRun, Event.syncer] at hmem
        · exact Option.noConfusion h
    · obtain ⟨init, ops1, rv1, ops2, rv2, t3, d, htr, hinit, hd, h3⟩ :=
        Reconcile_list_spec r request world "" hm
      rw [htr, (run_of_list_parts hinit hd h3).1] at hmem
      simp only [List.mem_append, List.mem_cons, List.not_mem_nil, or_false] at hmem
      rcases hmem with (h | h) | h
      · exact Syncer.noConfusion h
      · exact Syncer.noConfusion h
      · obtain ⟨ops, rv, e, hev⟩ := mem_syncersRun h
        obtain ⟨s, _, _, _, heq, hs⟩ := h3.1 _ hev
        simp only [Event.sync.injEq] at heq
        rw [← heq.1] at hs
        exact PDB_not_mem_syncersFor_empty rv1 rv2 hs
  · intro m hm hall
    obtain ⟨init, ops1, rv1, ops2, rv2, t3, d, htr, hinit, hd, h3⟩ :=
      Reconcile_list_spec r request world m hm
    refine ⟨rv1, rv2, ?_⟩
    rw [← six_append_eq, htr, (run_of_list_parts hinit hd h3).1]
    congr 1
    rcases h3.2 with ⟨_, hrun, _⟩ | ⟨e, t0, s, ops, rv, rest, _, ht, _, hl⟩
    · exact hrun
    · have hs : s = Syncer.PDB := by
        by_contra hne
        have hmem : Event.sync s ops rv (some e) ∈ (Reconcile r request world).trace := by
          rw [htr, ht]; simp
        have := hall _ hmem (by simpa [Event.syncer] using hne)
        simp [Event.failed] at this
      subst hs
      rw [ht]
      have := syncersFor_split_PDB hl
      rw [← this]
      simp [syncersRun, Event.syncer]
  · intro c0 hget h1 h2
    rw [Reconcile_minAvailable r request world c0 hget]
    exact reconcileSyncs_minAvailable r _ h1 h2

theorem C5_pdb_only_with_minAvailable_witness :
    (∃ a b, syncersRun (Reconcile (sample (Except.ok (sampleCluster "50%")) none)
        sampleRequest 0).trace =
      [Syncer.ConfigMap, Syncer.Secret, Syncer.HeadlessSVC, Syncer.MasterSVC,
        Syncer.HealthySVC, Syncer.StatefulSet a b] ++
      (if "50%" = "" then [] else [Syncer.PDB])) ∧
    Syncer.PDB ∉ syncersRun (Reconcile (sample (Except.ok (sampleCluster "")) none)
      sampleRequest 0).trace ∧
    (Reconcile (sample (Except.ok (sampleCluster "50%")) none) sampleRequest 0).minAvailable =
      some "50%" :=
  ⟨(C5_pdb_only_with_minAvailable (sample (Except.ok (sampleCluster "50%")) none)
      sampleRequest 0).2.1 "50%" rfl (by decide),
    (C5_pdb_only_with_minAvailable (sample (Except.ok (sampleCluster "")) none)
      sampleRequest 0).1 (Or.inr rfl),
    (C5_pdb_only_with_minAvailable (sample (Except.ok (sampleCluster "50%")) none)
      sampleRequest 0).2.2 (sampleCluster "50%") rfl rfl rfl⟩

/-- C6: in an attempt whose fetch and every Sync succeed, the steps taken are, in this order
and each once: sync of the config map, sync of the secret, read of the config map object and
of the secret object (for their resource versions), sync of the headless, master and healthy
services, sync of the statefulset, and then sync of the PodDisruptionBudget exactly when the
MinAvailable read at line 186 is non-empty; the nil error is returned. -/
theorem C6_order_of_syncers [DecidableEq σ] (r : ReconcileMysqlCluster α σ ε W)
    (request : NamespacedName) (world : W) (c0 : MysqlCluster α σ)
    (hget : r.Get world request = Except.ok c0)
    (hall : Clean (Reconcile r request world).trace) :
    ∃ a b m, (Reconcile r request world).minAvailable = some m ∧
      (Reconcile r request world).err = none ∧
      steps (Reconcile r request world).trace =
        [Step.run Syncer.ConfigMap, Step.run Syncer.Secret, Step.read Syncer.ConfigMap,
          Step.read Syncer.Secret, Step.run Syncer.HeadlessSVC, Step.run Syncer.MasterSVC,
          Step.run Syncer.HealthySVC, Step.run (Syncer.StatefulSet a b)] ++
        (if m = "" then [] else [Step.run Syncer.PDB]) ∧
      syncersRun (Reconcile r request world).trace =
        [Syncer.ConfigMap, Syncer.Secret, Syncer.HeadlessSVC, Syncer.MasterSVC,
          Syncer.HealthySVC, Syncer.StatefulSet a b] ++
        (if m = "" then [] else [Syncer.PDB]) := by
  obtain ⟨t, d, c, htr, _, _, _, hsync, hdef⟩ := Reconcile_ok_spec r request world c0 hget
  have herr : (Reconcile r request world).err = none := by
    rcases SyncPart_cases hsync with ⟨h, _⟩ | ⟨e, t0, s, ops, rv, _, ht, _⟩
    · exact h
    · exfalso
      have := hall (Event.sync s ops rv (some e)) (by rw [htr, ht]; simp)
      simp [Event.failed] at this
  rw [herr] at hsync
  rcases hsync with ⟨_, _, _, _, h, _⟩ | ⟨_, _, _, _, _, _, h, _⟩ |
    ⟨ops1, rv1, ops2, rv2, ma, t3, _, hm, _⟩
  · exact Option.noConfusion h
  · exact Option.noConfusion h
  · obtain ⟨init, ops1, rv1, ops2, rv2, t3, d, htr, hinit, hd, h3⟩ :=
      Reconcile_list_spec r request world ma hm
    have hrun : syncersRun t3 = syncersFor ma rv1 rv2 := by
      rcases h3.2 with ⟨_, hrun, _⟩ | ⟨e, _, _, _, _, _, he, _⟩
      · exact hrun
      · rw [herr] at he; exact Option.noConfusion he
    have hsix := six_append_eq ma rv1 rv2
    refine ⟨rv1, rv2, ma, hm, herr, ?_, ?_⟩
    · rw [htr, (run_of_list_parts hinit hd h3).2, hrun]
      unfold syncersFor
      by_cases hma : ma = ""
      · subst hma
        have : len "" = 0 := rfl
        simp [this]
      · have : len ma ≠ 0 := fun h => hma ((len_eq_zero_iff ma).mp h)
        simp [hma, this]
    · rw [htr, (run_of_list_parts hinit hd h3).1, hrun, hsix]

theorem C6_order_of_syncers_witness :
    ∃ a b m, (Reconcile (sample (Except.ok (sampleCluster "50%")) none)
        sampleRequest 0).minAvailable = some m ∧
      (Reconcile (sample (Except.ok (sampleCluster "50%")) none) sampleRequest 0).err = none ∧
      steps (Reconcile (sample (Except.ok (sampleCluster "50%")) none) sampleRequest 0).trace =
        [Step.run Syncer.ConfigMap, Step.run Syncer.Secret, Step.read Syncer.ConfigMap,
          Step.read Syncer.Secret, Step.run Syncer.HeadlessSVC, Step.run Syncer.MasterSVC,
          Step.run Syncer.HealthySVC, Step.run (Syncer.StatefulSet a b)] ++
        (if m = "" then [] else [Step.run Syncer.PDB]) ∧
      syncersRun (Reconcile (sample (Except.ok (sampleCluster "50%")) none)
          sampleRequest 0).trace =
        [Syncer.ConfigMap, Syncer.Secret, Syncer.HeadlessSVC, Syncer.MasterSVC,
          Syncer.HealthySVC, Syncer.StatefulSet a b] ++
        (if m = "" then [] else [Syncer.PDB]) :=
  C6_order_of_syncers (sample (Except.ok (sampleCluster "50%")) none) sampleRequest 0
    (sampleCluster "50%") rfl (by unfold Clean; decide)

/-- C7: in an attempt that reaches the statefulset syncer, the two version tokens the syncer
is constructed with are the resource versions of the config map object and of the secret
object held by their syncers after their Sync in the same attempt, each of which ran once
and succeeded; hence two attempts whose config map syncs or whose secret syncs left
different resource versions construct different statefulset syncers. -/
theorem C7_statefulset_carries_versions [DecidableEq σ] (r : ReconcileMysqlCluster α σ ε W)
    (request : NamespacedName) (world : W) (a b : String)
    (h : Syncer.StatefulSet a b ∈ syncersRun (Reconcile r request world).trace) :
    (∃ ops, Event.sync Syncer.ConfigMap ops a none ∈ (Reconcile r request world).trace) ∧
    (∃ ops, Event.sync Syncer.Secret ops b none ∈ (Reconcile r request world).trace) ∧
    (∀ rv, syncedAt (Reconcile r request world).trace Syncer.ConfigMap rv → rv = a) ∧
    (∀ rv, syncedAt (Reconcile r request world).trace Syncer.Secret rv → rv = b) ∧
    (∀ (r2 : ReconcileMysqlCluster α σ ε W) (request2 : NamespacedName) (world2 : W)
        (a2 b2 cm cm2 sec sec2 : String),
      Syncer.StatefulSet a2 b2 ∈ syncersRun (Reconcile r2 request2 world2).trace →
      syncedAt (Reconcile r request world).trace Syncer.ConfigMap cm →
      syncedAt (Reconcile r2 request2 world2).trace Syncer.ConfigMap cm2 →
      syncedAt (Reconcile r request world).trace Syncer.Secret sec →
      syncedAt (Reconcile r2 request2 world2).trace Syncer.Secret sec2 →
      cm ≠ cm2 ∨ sec ≠ sec2 →
      Syncer.StatefulSet a b ≠ Syncer.StatefulSet a2 b2) := by
  obtain ⟨h1, h2, h3, h4⟩ := statefulSet_versions r request world a b h
  refine ⟨h1, h2, h3, h4, ?_⟩
  intro r2 request2 world2 a2 b2 cm cm2 sec sec2 hs2 hcm hcm2 hsec hsec2 hne heq
  obtain ⟨_, _, k3, k4⟩ := statefulSet_versions r2 request2 world2 a2 b2 hs2
  simp only [Syncer.StatefulSet.injEq] at heq
  have e1 := h3 cm hcm
  have e2 := k3 cm2 hcm2
  have e3 := h4 sec hsec
  have e4 := k4 sec2 hsec2
  rcases hne with hne | hne
  · exact hne (by rw [e1, e2, heq.1])
  · exact hne (by rw [e3, e4, heq.2])

theorem C7_statefulset_carries_versions_witness :
    (∃ ops, Event.sync Syncer.ConfigMap ops "7" none ∈
      (Reconcile (sample (Except.ok (sampleCluster "")) none) sampleRequest 0).trace) ∧
    (∃ ops, Event.sync Syncer.Secret ops "9" none ∈
      (Reconcile (sample (Except.ok (sampleCluster "")) none) sampleRequest 0).trace) :=
  have h := C7_statefulset_carries_versions (sample (Except.ok (sampleCluster "")) none)
    sampleRequest 0 "7" "9" (by decide)
  ⟨h.1, h.2.1⟩

/-! ## Registration of watches -/

/-- C9 fails on the code: when `controller.New` and every `c.Watch` succeed, `add` returns nil
having registered watches on MysqlCluster, StatefulSet, Service, ConfigMap and
PodDisruptionBudget only; whatever the manager does, no watch on Secret is registered,
although the secret syncer is one of the syncers Reconcile runs. -/
theorem C9_secret_is_not_watched :
    add sampleManager = (none,
      [⟨Kind.MysqlCluster, EventHandler.EnqueueRequestForObject⟩,
        ⟨Kind.StatefulSet, EventHandler.EnqueueRequestForOwner true Kind.MysqlCluster⟩,
        ⟨Kind.Service, EventHandler.EnqueueRequestForOwner true Kind.MysqlCluster⟩,
        ⟨Kind.ConfigMap, EventHandler.EnqueueRequestForOwner true Kind.MysqlCluster⟩,
        ⟨Kind.PodDisruptionBudget, EventHandler.EnqueueRequestForOwner true Kind.MysqlCluster⟩]) ∧
    (∀ (ε : Type) (mgr : Manager ε), Kind.Secret ∉ watchedKinds (add mgr).2) ∧
    Syncer.Secret.kind = Kind.Secret ∧
    Syncer.Secret ∈ syncersRun
      (Reconcile (sample (Except.ok (sampleCluster "")) none) sampleRequest 0).trace := by
  exact ⟨rfl, fun _ mgr => add_no_secret mgr, rfl, by decide⟩

/-! ## Running Reconcile twice -/

/-- C8: over the object store, with syncers that are deterministic and write only when the
desired body differs from the persisted one: if a first run of Reconcile returns no error
and its writes, the status update included, are committed, a second run on the store as the
first left it issues no child-resource create or update and no status update, and returns
no error. -/
theorem C8_second_run_writes_nothing {β : Type} [DecidableEq β] [DecidableEq σ]
    (logic : SyncerLogic α σ ε β) (request : NamespacedName) (w : Store α σ β)
    (hok : (Reconcile (storeReconciler logic) request w).err = none) :
    clientOps (Reconcile (storeReconciler logic) request
      (Reconcile (storeReconciler logic) request w).world).trace = [] ∧
    statusUpdates (Reconcile (storeReconciler logic) request
      (Reconcile (storeReconciler logic) request w).world).trace = 0 ∧
    (Reconcile (storeReconciler logic) request
      (Reconcile (storeReconciler logic) request w).world).err = none := by
  cases hget : (storeReconciler logic).Get w request with
  | error e =>
    have hw : (Reconcile (storeReconciler logic) request w).world = w := by
      by_cases hnf : (storeReconciler logic).IsNotFound e = true <;>
        simp [Reconcile, hget, hnf]
    rw [hw]
    refine ⟨?_, ?_, hok⟩
    · rw [(Reconcile_fetch_error _ request w e hget).1]
      simp [clientOps, Event.ops]
    · rw [(Reconcile_fetch_error _ request w e hget).1]
      simp [statusUpdates, Event.isStatusUpdate]
  | ok c0 =>
    obtain ⟨hkey, hcl⟩ := (storeGet_ok logic w request c0).mp hget
    have hR1 := Reconcile_ok_eq (storeReconciler logic) request w c0 hget _ rfl
    have hstatus : (setDefaults (storeReconciler logic) c0).Status = c0.Status := rfl
    rw [hR1] at hok ⊢
    simp only at hok ⊢
    obtain ⟨v1, v2, v3, v4, v5⟩ := storeSyncs_converge logic _ hok
    simp only at v1 v2 v3 v4 v5
    generalize (reconcileSyncs (storeReconciler logic)
      { cluster := setDefaults (storeReconciler logic) c0, world := w, trace :=
          [Event.get request, Event.logInfo, Event.schemeDefault, Event.setDefaults] }).2.2 = fin
      at v1 v2 v3 v4 v5 ⊢
    rw [hstatus]
    obtain ⟨d1, d2, d3⟩ := deferred_store logic fin c0 (v3.trans hcl)
    generalize (deferred (storeReconciler logic) c0.Status fin).world = w1 at d1 d2 d3 ⊢
    have hget2 : (storeReconciler logic).Get w1 request =
        Except.ok { c0 with Status := fin.cluster.Status } :=
      (storeGet_ok logic w1 request _).mpr ⟨by rw [d1, v2, hkey], d3⟩
    have hspec2 : (setDefaults (storeReconciler logic)
        { c0 with Status := fin.cluster.Status }).Spec =
        (setDefaults (storeReconciler logic) c0).Spec := rfl
    have hconv : Converged logic (setDefaults (storeReconciler logic)
        { c0 with Status := fin.cluster.Status }).Spec w1 := by
      rw [hspec2]; exact Converged_congr logic _ _ _ d2 v4
    have hsq := storeSyncs_quiet logic
      { cluster := setDefaults (storeReconciler logic) { c0 with Status := fin.cluster.Status },
        world := w1, trace :=
          [Event.get request, Event.logInfo, Event.schemeDefault, Event.setDefaults] }
      hconv
    have hfix : statusAfterAll logic
        (setDefaults (storeReconciler logic) { c0 with Status := fin.cluster.Status }).Spec w1
        ([Syncer.ConfigMap, Syncer.Secret] ++ syncersFor
          (setDefaults (storeReconciler logic)
            { c0 with Status := fin.cluster.Status }).Spec.MinAvailable
          (w1.token Slot.ConfigMap) (w1.token Slot.Secret))
        (setDefaults (storeReconciler logic) { c0 with Status := fin.cluster.Status }).Status =
        (setDefaults (storeReconciler logic) { c0 with Status := fin.cluster.Status }).Status := by
      have e1 : (setDefaults (storeReconciler logic)
          { c0 with Status := fin.cluster.Status }).Status = fin.cluster.Status := rfl
      rw [e1, hspec2, token_congr _ _ _ (congrFun d2 Slot.ConfigMap),
        token_congr _ _ _ (congrFun d2 Slot.Secret), statusAfterAll_congr logic _ _ _ d2]
      conv => lhs; arg 5; rw [v5]
      conv => rhs; rw [v5]
      exact statusAfterAll_idem logic _ _ _ _
    rw [Reconcile_ok_eq (storeReconciler logic) request w1 _ hget2 _ hsq]
    simp only [deferred, hfix, ne_eq, not_true_eq_false, if_false]
    have hqe := quiet_events (ε := ε)
      (syncersFor (setDefaults (storeReconciler logic)
        { c0 with Status := fin.cluster.Status }).Spec.MinAvailable
        (w1.token Slot.ConfigMap) (w1.token Slot.Secret))
      (fun s => w1.token s.slot)
    simp only [clientOps, statusUpdates] at hqe ⊢
    simp [Event.ops, Event.isStatusUpdate, hqe.1, hqe.2]

theorem C8_second_run_writes_nothing_witness :
    (clientOps (Reconcile (storeReconciler sampleLogic) sampleRequest sampleStore).trace).length
      = 7 ∧
    statusUpdates (Reconcile (storeReconciler sampleLogic) sampleRequest sampleStore).trace = 1 ∧
    clientOps (Reconcile (storeReconciler sampleLogic) sampleRequest
      (Reconcile (storeReconciler sampleLogic) sampleRequest sampleStore).world).trace = [] ∧
    statusUpdates (Reconcile (storeReconciler sampleLogic) sampleRequest
      (Reconcile (storeReconciler sampleLogic) sampleRequest sampleStore).world).trace = 0 :=
  have h := C8_second_run_writes_nothing sampleLogic sampleRequest sampleStore (by decide)
  ⟨by decide, by decide, h.1, h.2.1⟩

end MysqlOperator
